import Mathlib

/-!
Verification of the qiclib real-time correlation and streaming-acquisition
engine (RTOS experiment tasks written in C).

The development shallowly embeds the C code:
* machine integers become `Int` with explicit two's-complement wrapping
  (`toInt16`, `toInt32`) applied exactly where a C store to a narrower
  signed type occurs; the C arithmetic right shift `>> n` on signed values
  becomes `/ 2^n` on `Int` (Lean's `/` on `Int` is floor division, which
  coincides with the arithmetic shift);
* in-place arrays become total functions `Nat → _` modified with
  `Function.update`;
* the fixed-length C loops become structural recursions;
* the 64-bit accumulators are modelled as unbounded `Int` (their values in
  any single accumulation round are far below 2^63).

Embedded sources:
* `src/qiclib/experiment/rtos_tasks/correlation/correlation_conv.c`
  (FIX_MPY, FIX_MPY_16, fix_fft, fix_fft_16, calc_g1, calc_g2),
* `src/qiclib/experiment/rtos_tasks/correlation/g1_correlation_conv.c`
  and `g2_correlation_conv.c` (identical kernels, task bodies),
* `src/qiclib/experiment/rtos_tasks/correlation/g1_correlation.c` and
  `g2_correlation.c` (windowed direct variants),
* `src/qiclib/experiment/rtos_tasks/quantum_jumps_new.c` and
  `quantum_jumps_multi.c` (hardware ring-buffer drain loop).
-/

namespace Qiclib

/-! ## Fixed-point arithmetic primitives -/

/-- Two's-complement wrap of an unbounded integer to a signed 16-bit value,
the effect of a C store into an `int16_t`. -/
def toInt16 (x : Int) : Int := (x + 32768) % 65536 - 32768

/-- Two's-complement wrap of an unbounded integer to a signed 32-bit value,
the effect of a C store into an `int32_t`. -/
def toInt32 (x : Int) : Int := (x + 2147483648) % 4294967296 - 2147483648

/-- `FIX_MPY_16` from `correlation_conv.c` (the identical function is named
`FIX_MPY` in `g1_correlation_conv.c`): 16-bit fixed-point multiply.
`c = (a*b) >> 14`, rounding bit `c & 1`, result `(c >> 1) + (c & 1)` stored
into an `int16_t`. -/
def FIX_MPY_16 (a b : Int) : Int :=
  let c := (a * b) / 16384
  toInt16 (c / 2 + c % 2)

/-- `FIX_MPY` from `correlation_conv.c` / `g2_correlation_conv.c`: 32-bit
fixed-point multiply, `c = (a*b) >> 30`, result `(c >> 1) + (c & 1)` stored
into an `int32_t`. -/
def FIX_MPY (a b : Int) : Int :=
  let c := (a * b) / 1073741824
  toInt32 (c / 2 + c % 2)

/-! ## Complex samples and the in-place FFT -/

/-- One demodulated IQ sample pair (`iq_pair_raw` / `struct mult` in C). -/
structure IQ where
  i : Int
  q : Int
deriving DecidableEq

/-- The all-zero sample. -/
def zeroIQ : IQ := ⟨0, 0⟩

/-- Exchange of the samples at indices `a` and `b`, as done by the
three-assignment swap in the decimation-in-time reorder loop. -/
def swapIQ (f : Nat → IQ) (a b : Nat) : Nat → IQ :=
  Function.update (Function.update f a (f b)) b (f a)

/-- The inner do-while of the bit-reversal loop: starting from `l`, keep
halving `l` while `mr + l > nn` (with `nn = 1023`). The C loop always
terminates because `mr ≤ nn` there; the `l = 0` guard makes the recursion
total without changing any reachable behaviour. -/
def shrinkL (mr : Nat) (l : Nat) : Nat :=
  if l = 0 then 0
  else if mr + l > 1023 then shrinkL mr (l / 2)
  else l
termination_by l
decreasing_by omega

/-- One update of the bit-reversed counter `mr`:
`do { l >>= 1 } while (mr + l > nn); mr = (mr & (l-1)) + l` with the first
halving of `l = n = 1024` already applied (start value 512). -/
def bitrevStep (mr : Nat) : Nat :=
  let l := shrinkL mr 512
  Nat.land mr (l - 1) + l

/-- The decimation-in-time reorder loop of `fix_fft`, iterating
`m = 1, …, 1023` and carrying the bit-reversed counter `mr`; `fuel` is the
number of remaining iterations. -/
def bitrevAux : Nat → Nat → Nat → (Nat → IQ) → (Nat → IQ)
  | 0, _, _, f => f
  | fuel + 1, m, mr, f =>
    let mr' := bitrevStep mr
    bitrevAux fuel (m + 1) mr' (if mr' ≤ m then f else swapIQ f m mr')

/-- Full bit-reversal reorder pass (`for (m = 1; m <= nn; ++m)`). -/
def bitrev (f : Nat → IQ) : Nat → IQ := bitrevAux 1023 1 0 f

/-- One butterfly of `fix_fft`, updating positions `z` and `j = z + l`.
`wrap` is the wrapping of a store into the element type (`toInt16` or
`toInt32`) and `mpy` the matching fixed-point multiply. -/
def bfly (wrap : Int → Int) (mpy : Int → Int → Int) (wr wi : Int)
    (z j : Nat) (f : Nat → IQ) : Nat → IQ :=
  let tr := wrap (mpy wr (f j).i - mpy wi (f j).q)
  let ti := wrap (mpy wr (f j).q + mpy wi (f j).i)
  let qr := (f z).i / 2
  let qi := (f z).q / 2
  let f1 := Function.update f j ⟨wrap (qr - tr), wrap (qi - ti)⟩
  Function.update f1 z ⟨wrap (qr + tr), wrap (qi + ti)⟩

/-- The innermost loop `for (z = m; z < n; z += zstep)`; `count` is the
number of remaining iterations (`n / zstep` at the start). -/
def zLoop (wrap : Int → Int) (mpy : Int → Int → Int) (wr wi : Int)
    (l zstep : Nat) : Nat → Nat → (Nat → IQ) → (Nat → IQ)
  | 0, _, f => f
  | count + 1, z, f =>
    zLoop wrap mpy wr wi l zstep count (z + zstep) (bfly wrap mpy wr wi z (z + l) f)

/-- The middle loop `for (m = 0; m < l; ++m)` of one butterfly stage:
`j0 = m << k`, twiddle factors `wr = ref[j0 + N/4] >> 1`,
`wi = (-ref[j0]) >> 1` (stored into element-typed variables), then the
inner z-loop. `rem` counts the remaining m-iterations. -/
def mLoop (wrap : Int → Int) (mpy : Int → Int → Int) (ref : Nat → Int)
    (l k zstep zcount : Nat) : Nat → Nat → (Nat → IQ) → (Nat → IQ)
  | 0, _, f => f
  | rem + 1, m, f =>
    let j0 := m * 2 ^ k
    let wr := wrap (ref (j0 + 256) / 2)
    let wi := wrap ((-ref j0) / 2)
    mLoop wrap mpy ref l k zstep zcount rem (m + 1)
      (zLoop wrap mpy wr wi l zstep zcount m f)

/-- The stage loop `while (l < n)` of `fix_fft`: stage `s` has
`l = 2^s`, `k = LOG2_N_WAVE - 1 - s = 9 - s`, `zstep = 2^(s+1)` and
`2^(9-s)` z-iterations per m value; `rem` counts remaining stages. -/
def stagesAux (wrap : Int → Int) (mpy : Int → Int → Int) (ref : Nat → Int) :
    Nat → Nat → (Nat → IQ) → (Nat → IQ)
  | 0, _, f => f
  | rem + 1, s, f =>
    stagesAux wrap mpy ref rem (s + 1)
      (mLoop wrap mpy ref (2 ^ s) (9 - s) (2 ^ (s + 1)) (2 ^ (9 - s)) (2 ^ s) 0 f)

/-- The in-place 1024-point fixed-point FFT `fix_fft`, parameterised by the
element width (wrap of element stores and the matching `FIX_MPY`). -/
def fix_fft_core (wrap : Int → Int) (mpy : Int → Int → Int)
    (f : Nat → IQ) (ref : Nat → Int) : Nat → IQ :=
  stagesAux wrap mpy ref 10 0 (bitrev f)

/-- The 32-bit `fix_fft` of `correlation_conv.c` / `g2_correlation_conv.c`. -/
def fix_fft (f : Nat → IQ) (ref : Nat → Int) : Nat → IQ :=
  fix_fft_core toInt32 FIX_MPY f ref

/-- The 16-bit `fix_fft_16` of `correlation_conv.c` (named `fix_fft` in
`g1_correlation_conv.c`). -/
def fix_fft_16 (f : Nat → IQ) (ref : Nat → Int) : Nat → IQ :=
  fix_fft_core toInt16 FIX_MPY_16 f ref

/-! ## The g1 / g2 accumulation kernels (FFT-convolution variants) -/

/-- An ascending accumulation loop `for (o = 0; o < n; o++) d[o] += g o`,
over a 64-bit accumulator array modelled as `Nat → Int`. -/
def accumLoop (g : Nat → Int) : Nat → (Nat → Int) → (Nat → Int)
  | 0, d => d
  | n + 1, d =>
    let d' := accumLoop g n d
    Function.update d' n (d' n + g n)

/-- `calc_g1` (identical in `g1_correlation_conv.c` and
`correlation_conv.c`): FFT both channels in place with the 16-bit kernel,
then accumulate per frequency bin
`dest_real[o] += D1[o].i*D2[o].i + D1[o].q*D2[o].q` and
`dest_imag[o] += D1[o].i*D2[o].q - D1[o].q*D2[o].i`.
Returns the updated `(dest_real, dest_imag)` pair. -/
def calc_g1 (dest_real dest_imag : Nat → Int) (D1 D2 : Nat → IQ)
    (ref : Nat → Int) : (Nat → Int) × (Nat → Int) :=
  let T1 := fix_fft_16 D1 ref
  let T2 := fix_fft_16 D2 ref
  (accumLoop (fun o => (T1 o).i * (T2 o).i + (T1 o).q * (T2 o).q) 1024 dest_real,
   accumLoop (fun o => (T1 o).i * (T2 o).q - (T1 o).q * (T2 o).i) 1024 dest_imag)

/-- The first loop of `calc_g2`: the element-wise complex product signal
written into `signal_mult` (each component stored into an `int32_t`). -/
def signalProd (D1 D2 : Nat → IQ) : Nat → IQ := fun samp =>
  ⟨toInt32 ((D1 samp).i * (D2 samp).i + (D1 samp).q * (D2 samp).q),
   toInt32 ((D1 samp).i * (D2 samp).q - (D1 samp).q * (D2 samp).i)⟩

/-- `calc_g2` (identical in `g2_correlation_conv.c` and
`correlation_conv.c`): form the product signal, FFT it once with the 32-bit
kernel, then accumulate per output index `samp` using the transform at the
mirror index `(1024 - samp) % 1024`. Returns the updated accumulators. -/
def calc_g2 (dest_real dest_imag : Nat → Int) (D1 D2 : Nat → IQ)
    (ref : Nat → Int) : (Nat → Int) × (Nat → Int) :=
  let M := fix_fft (signalProd D1 D2) ref
  (accumLoop (fun samp =>
      (M ((1024 - samp) % 1024)).i * (M samp).i
        - (M ((1024 - samp) % 1024)).q * (M samp).q) 1024 dest_real,
   accumLoop (fun samp =>
      (M ((1024 - samp) % 1024)).i * (M samp).q
        + (M ((1024 - samp) % 1024)).q * (M samp).i) 1024 dest_imag)

/-! ## The g1 direct (windowed) variant -/

/-- `g1calc_real_part` from `g1_correlation.c`: add to the single cell
`dest` the sum over `t < samp_num` of
`(D1[t].i*D2[t+tau].i + D1[t].q*D2[t+tau].q) >> shift`, the arithmetic
shift applied to each per-`t` term. -/
def g1calc_real_part (dest : Int) (samp_num : Nat) (D1 D2 : Nat → IQ)
    (tau shift : Nat) : Int :=
  (List.range samp_num).foldl
    (fun d t =>
      d + ((D1 t).i * (D2 (t + tau)).i + (D1 t).q * (D2 (t + tau)).q) / 2 ^ shift)
    dest

/-- `g1calc_imag_part` from `g1_correlation.c`: the matching imaginary sum
`(D1[t].i*D2[t+tau].q - D1[t].q*D2[t+tau].i) >> shift`. -/
def g1calc_imag_part (dest : Int) (samp_num : Nat) (D1 D2 : Nat → IQ)
    (tau shift : Nat) : Int :=
  (List.range samp_num).foldl
    (fun d t =>
      d + ((D1 t).i * (D2 (t + tau)).q - (D1 t).q * (D2 (t + tau)).i) / 2 ^ shift)
    dest

/-- The per-round lag loop of `g1_correlation.c`,
`for (tau = 0; tau < tau_max; tau++) g1calc_real_part(dest + tau, …)`,
acting on the real accumulator array. -/
def g1RoundReal (D1 D2 : Nat → IQ) (samp_num shift : Nat) :
    Nat → (Nat → Int) → (Nat → Int)
  | 0, d => d
  | tau + 1, d =>
    let d' := g1RoundReal D1 D2 samp_num shift tau d
    Function.update d' tau (g1calc_real_part (d' tau) samp_num D1 D2 tau shift)

/-- The per-round lag loop acting on the imaginary accumulator array. -/
def g1RoundImag (D1 D2 : Nat → IQ) (samp_num shift : Nat) :
    Nat → (Nat → Int) → (Nat → Int)
  | 0, d => d
  | tau + 1, d =>
    let d' := g1RoundImag D1 D2 samp_num shift tau d
    Function.update d' tau (g1calc_imag_part (d' tau) samp_num D1 D2 tau shift)

/-- One acquisition round's accumulation in the g1 direct task:
for every lag `tau < tau_max` add the windowed sums over
`samp_num = 1024 - tau_max` products into cell `tau` of each accumulator. -/
def g1DirectRound (dR dI : Nat → Int) (D1 D2 : Nat → IQ)
    (tau_max shift : Nat) : (Nat → Int) × (Nat → Int) :=
  (g1RoundReal D1 D2 (1024 - tau_max) shift tau_max dR,
   g1RoundImag D1 D2 (1024 - tau_max) shift tau_max dI)

/-- `g2calc_real_part` from `g2_correlation.c`: add to the single cell
`dest` the sum over `t < samp_num` of the eight-term fourth-order product
`(D1[t] D1[t+tau] D2[t+tau] D2[t])` real combination, each per-`t` term
arithmetically right-shifted by `shift`. The eight summands are
transcribed in source order with the source signs. -/
def g2calc_real_part (dest : Int) (samp_num : Nat) (D1 D2 : Nat → IQ)
    (tau shift : Nat) : Int :=
  (List.range samp_num).foldl
    (fun d t =>
      d + ((D1 t).i * (D1 (t + tau)).i * (D2 (t + tau)).i * (D2 t).i
           - (D1 t).i * (D1 (t + tau)).i * (D2 (t + tau)).q * (D2 t).q
           + (D1 t).q * (D1 (t + tau)).i * (D2 (t + tau)).q * (D2 t).i
           + (D1 t).q * (D1 (t + tau)).i * (D2 (t + tau)).i * (D2 t).q
           + (D1 t).i * (D1 (t + tau)).q * (D2 (t + tau)).q * (D2 t).i
           + (D1 t).i * (D1 (t + tau)).q * (D2 (t + tau)).i * (D2 t).q
           - (D1 t).q * (D1 (t + tau)).q * (D2 (t + tau)).i * (D2 t).i
           + (D1 t).q * (D1 (t + tau)).q * (D2 (t + tau)).q * (D2 t).q) / 2 ^ shift)
    dest

/-- `g2calc_imag_part` from `g2_correlation.c`: the matching eight-term
imaginary combination, transcribed in source order with the source
signs. -/
def g2calc_imag_part (dest : Int) (samp_num : Nat) (D1 D2 : Nat → IQ)
    (tau shift : Nat) : Int :=
  (List.range samp_num).foldl
    (fun d t =>
      d + ((D1 t).i * (D1 (t + tau)).i * (D2 (t + tau)).q * (D2 t).i
           + (D1 t).i * (D1 (t + tau)).i * (D2 (t + tau)).i * (D2 t).q
           - (D1 t).q * (D1 (t + tau)).i * (D2 (t + tau)).i * (D2 t).i
           + (D1 t).q * (D1 (t + tau)).i * (D2 (t + tau)).q * (D2 t).q
           - (D1 t).i * (D1 (t + tau)).q * (D2 (t + tau)).i * (D2 t).i
           + (D1 t).i * (D1 (t + tau)).q * (D2 (t + tau)).q * (D2 t).q
           - (D1 t).q * (D1 (t + tau)).q * (D2 (t + tau)).q * (D2 t).i
           - (D1 t).q * (D1 (t + tau)).q * (D2 (t + tau)).i * (D2 t).q) / 2 ^ shift)
    dest

/-- The per-round lag loop of `g2_correlation.c`,
`for (tau = 0; tau < tau_max; tau++) g2calc_real_part(dest + tau, …)`,
acting on the real accumulator array. -/
def g2RoundReal (D1 D2 : Nat → IQ) (samp_num shift : Nat) :
    Nat → (Nat → Int) → (Nat → Int)
  | 0, d => d
  | tau + 1, d =>
    let d' := g2RoundReal D1 D2 samp_num shift tau d
    Function.update d' tau (g2calc_real_part (d' tau) samp_num D1 D2 tau shift)

/-- The per-round lag loop of `g2_correlation.c` acting on the imaginary
accumulator array. -/
def g2RoundImag (D1 D2 : Nat → IQ) (samp_num shift : Nat) :
    Nat → (Nat → Int) → (Nat → Int)
  | 0, d => d
  | tau + 1, d =>
    let d' := g2RoundImag D1 D2 samp_num shift tau d
    Function.update d' tau (g2calc_imag_part (d' tau) samp_num D1 D2 tau shift)

/-- One acquisition round's accumulation in the g2 direct task
(`g2_correlation.c`): for every lag `tau < tau_max` add the windowed
fourth-order sums over `samp_num = 1024 - tau_max` terms into cell `tau`
of each accumulator. -/
def g2DirectRound (dR dI : Nat → Int) (D1 D2 : Nat → IQ)
    (tau_max shift : Nat) : (Nat → Int) × (Nat → Int) :=
  (g2RoundReal D1 D2 (1024 - tau_max) shift tau_max dR,
   g2RoundImag D1 D2 (1024 - tau_max) shift tau_max dI)

/-- Contents of a channel buffer after the background acquisition of
`g1_correlation.c` / `g2_correlation.c`: the background fetch
`rec_get_result_memory(ch, buf, samp_num)` overwrites only the first
`samp_num` entries, entries at `idx ≥ samp_num` keep the values `sig`
written by the preceding signal acquisition of the same round. -/
def bgOverlay (samp_num : Nat) (bg sig : Nat → IQ) : Nat → IQ :=
  fun idx => if idx < samp_num then bg idx else sig idx

/-! ## The hardware ring-buffer drain loop -/

/-- Snapshot of the 1024-word device BRAM after the producer has written
`w` records in total: the producer writes record number `p` (value `f p`)
to address `p % 1024`, so address `a` holds the latest record with that
address; addresses never yet written hold 0 (the BRAM was reset). -/
def bramAt (f : Nat → Int) (w a : Nat) : Int :=
  if a < w % 1024 then f (w - w % 1024 + a)
  else if 1024 ≤ w then f (w - w % 1024 - 1024 + a)
  else 0

/-- Drain-loop cursor and host output: `last` is `last_addr`, `acc` the
sequence of words copied into the host `states` buffer so far. -/
structure DrainState where
  last : Nat
  acc : List Int
deriving DecidableEq

/-- First conditional of the drain loop body: the wraparound branch
(`next_addr < last_addr`: copy `[last_addr, 1024)` out of the BRAM, reset
`last_addr` to 0). -/
def drainWrapStep (bram : Nat → Int) (st : DrainState) (next : Nat) : DrainState :=
  if next < st.last then
    { last := 0,
      acc := st.acc ++ (List.range (1024 - st.last)).map (fun i => bram (st.last + i)) }
  else st

/-- Second conditional of the drain loop body: the fresh-data branch
(`next_addr > last_addr`: copy `[last_addr, next_addr)`, advance
`last_addr` to `next_addr`). -/
def drainCopyStep (bram : Nat → Int) (st : DrainState) (next : Nat) : DrainState :=
  if st.last < next then
    { last := next,
      acc := st.acc ++ (List.range (next - st.last)).map (fun i => bram (st.last + i)) }
  else st

/-- One iteration of the drain loop body of `quantum_jumps_new.c`
(`quantum_jumps_multi.c` is identical per cell): given the BRAM snapshot
and the freshly read `next_addr`, the wraparound conditional runs first,
then the fresh-data conditional sees the updated `last_addr` — exactly the
two sequential `if` statements of the C loop body. -/
def drainPoll (bram : Nat → Int) (st : DrainState) (next : Nat) : DrainState :=
  drainCopyStep bram (drainWrapStep bram st next) next

/-- The whole polling loop: `polls` lists, for each iteration of the
`while (busy)` loop, the producer's total write count at the moment the
iteration reads the hardware (the iteration then sees
`next_addr = w % 1024` and the matching BRAM snapshot). The final entry is
the poll performed after the sequencer reported idle. -/
def drainRun (f : Nat → Int) : List Nat → DrainState → DrainState
  | [], st => st
  | w :: rest, st => drainRun f rest (drainPoll (bramAt f w) st (w % 1024))

/-- The producer advances by fewer than 1024 records (the buffer capacity)
between consecutive polls, starting from total `prev`. -/
def validPolls : Nat → List Nat → Bool
  | _, [] => true
  | prev, w :: rest =>
    decide (prev ≤ w) && decide (w - prev < 1024) && validPolls w rest

/-- The producer advances by fewer than 2048 records (twice the capacity)
between consecutive polls — the weaker bound asserted by the claim. -/
def validPollsTwice : Nat → List Nat → Bool
  | _, [] => true
  | prev, w :: rest =>
    decide (prev ≤ w) && decide (w - prev < 2048) && validPollsTwice w rest

/-- Total number of records the producer wrote before the sequencer
reported idle: the write count seen by the final poll. -/
def pollsLast (prev : Nat) (polls : List Nat) : Nat := polls.getLastD prev

/-! ## Task entry structure: parameter validation and emitted operations -/

/-- Operations a task emits towards its collaborators, in program order. -/
inductive Op
  | setProgress (n : Nat)
  | seqStart (pc : Nat)
  | seqWait
  | recWait (ch : Nat)
  | recGet (ch : Nat) (len : Nat)
  | getBox (b : Nat)
  | finishBox (b : Nat)
  | discardBox (b : Nat)
  | enterCrit
  | exitCrit
  | errorCounts (expected actual : Nat)
deriving DecidableEq

/-- Does the operation publish a result buffer (`rtos_FinishDataBox`)? -/
def Op.isFinish : Op → Bool
  | .finishBox _ => true
  | _ => false

/-- Is the operation a critical-section boundary? -/
def Op.isCrit : Op → Bool
  | .enterCrit => true
  | .exitCrit => true
  | _ => false

/-- Is the operation a suspension point (a blocking wait on hardware)? -/
def Op.isSuspension : Op → Bool
  | .seqWait => true
  | .recWait _ => true
  | _ => false

/-- The publication block body of a correlation task's iteration:
real and imaginary result buffers (ids 0, 1), plus the background pair
(ids 2, 3) when the background measurement was requested. -/
def pubGroup (ss : Bool) : List Op :=
  [.finishBox 0, .finishBox 1] ++ (if ss then [.finishBox 2, .finishBox 3] else [])

/-- One averaging round of `g1_correlation_conv.c` / `g2_correlation_conv.c`
(both fetch 1024 samples per channel; the background sub-round runs only
when `measure_ss` is set). -/
def convRoundTrace (its averages avg pc pcss : Nat) (ss : Bool) : List Op :=
  [.setProgress (avg + its * averages), .seqStart pc, .seqWait,
   .recWait 0, .recWait 1, .recGet 0 1024, .recGet 1 1024] ++
  (if ss then
    [.seqStart pcss, .seqWait, .recWait 0, .recWait 1,
     .recGet 0 1024, .recGet 1 1024]
   else [])

/-- One reporting iteration of `g1_correlation_conv.c` /
`g2_correlation_conv.c`: allocate and zero the result boxes, wait for the
previous task, run `averages` rounds, update progress, then publish all
result buffers of the iteration inside one critical section. -/
def convIterTrace (its averages pc pcss : Nat) (ss : Bool) : List Op :=
  [.getBox 0, .getBox 1] ++ (if ss then [.getBox 2, .getBox 3] else []) ++
  [.seqWait] ++
  ((List.range averages).flatMap fun avg => convRoundTrace its averages avg pc pcss ss) ++
  [.setProgress ((its + 1) * averages), .enterCrit] ++
  pubGroup ss ++ [.exitCrit]

/-- One averaging round of `g1_correlation.c` / `g2_correlation.c` (direct
windowed variants): the signal acquisition fetches 1024 samples per
channel, the background acquisition only `samp_num = 1024 - tau_max`. -/
def directRoundTrace (its averages avg pc pcss tau_max : Nat) (ss : Bool) : List Op :=
  [.setProgress (avg + its * averages), .seqStart pc, .seqWait,
   .recWait 0, .recWait 1, .recGet 0 1024, .recGet 1 1024] ++
  (if ss then
    [.seqStart pcss, .seqWait, .recWait 0, .recWait 1,
     .recGet 0 (1024 - tau_max), .recGet 1 (1024 - tau_max)]
   else [])

/-- One reporting iteration of `g1_correlation.c` / `g2_correlation.c`. -/
def directIterTrace (its averages pc pcss tau_max : Nat) (ss : Bool) : List Op :=
  [.getBox 0, .getBox 1] ++ (if ss then [.getBox 2, .getBox 3] else []) ++
  [.seqWait] ++
  ((List.range averages).flatMap fun avg =>
    directRoundTrace its averages avg pc pcss tau_max ss) ++
  [.setProgress ((its + 1) * averages), .enterCrit] ++
  pubGroup ss ++ [.exitCrit]

/-- Operations `quantum_jumps_new.c` emits after its drain loop exits with
`count` drained words against `repetitions` requested records (10 packed
states per word): a descriptive expected-versus-actual error exactly when
the drained total falls short, then unconditionally `rtos_FinishDataBox`
on the `states` buffer. -/
def qjNewReportTrace (repetitions count : Nat) : List Op :=
  (if count * 10 < repetitions then [Op.errorCounts repetitions (count * 10)] else []) ++
  [Op.finishBox 0]

/-- The drain phase of `quantum_jumps_new.c` followed by its reporting
phase, for a producer described by `f` (record values) and `polls` (the
write totals seen by the loop iterations). -/
def qjNewRun (repetitions : Nat) (f : Nat → Int) (polls : List Nat) : List Op :=
  qjNewReportTrace repetitions (drainRun f polls ⟨0, []⟩).acc.length

/-- Parameter-count validation prefix of `g1_correlation_conv.c`:
`some r` means the task returns `r` before touching parameters values or
hardware; `none` means it proceeds. The task requires exactly 5 values. -/
def g1_conv_paramPhase (params : List Nat) : Option Int :=
  if params.length ≠ 5 then some (-1) else none

/-- Parameter-count validation prefix of `g2_correlation_conv.c`
(exactly 5 values). -/
def g2_conv_paramPhase (params : List Nat) : Option Int :=
  if params.length ≠ 5 then some (-1) else none

/-- Parameter-count validation prefix of `correlation_conv.c`
(exactly 9 values). -/
def corr_conv_paramPhase (params : List Nat) : Option Int :=
  if params.length ≠ 9 then some (-1) else none

/-- Parameter-count validation prefix of `g1_correlation.c`
(exactly 7 values). -/
def g1_direct_paramPhase (params : List Nat) : Option Int :=
  if params.length ≠ 7 then some (-1) else none

/-- Parameter-count validation prefix of `g2_correlation.c`
(exactly 7 values). -/
def g2_direct_paramPhase (params : List Nat) : Option Int :=
  if params.length ≠ 7 then some (-1) else none

/-- Parameter phase of `quantum_jumps_new.c`: the task reads
`param_list[0]` directly with no count validation whatsoever
(lines 28–29), so it never rejects. -/
def quantum_jumps_new_paramPhase (_params : List Nat) : Option Int :=
  none

/-- A task's parameter phase rejects every parameter list whose 32-bit
value count differs from `expected`, with a non-zero status, before
interpreting values or touching hardware. -/
def rejectsWrongCount (phase : List Nat → Option Int) (expected : Nat) : Prop :=
  ∀ params : List Nat, params.length ≠ expected →
    ∃ r : Int, phase params = some r ∧ r ≠ 0

/-- The effect of one butterfly stage on a sample when the reference table
is identically zero: both stored values reduce to the halved passthrough
term. -/
def halfIQ (wrap : Int → Int) (c : IQ) : IQ := ⟨wrap (c.i / 2), wrap (c.q / 2)⟩

/-- Everything a conv-variant iteration emits before entering the
publication critical section. -/
def convPreTrace (its averages pc pcss : Nat) (ss : Bool) : List Op :=
  [.getBox 0, .getBox 1] ++ (if ss then [.getBox 2, .getBox 3] else []) ++
  [.seqWait] ++
  ((List.range averages).flatMap fun avg => convRoundTrace its averages avg pc pcss ss) ++
  [.setProgress ((its + 1) * averages)]

/-- Everything a direct-variant iteration emits before entering the
publication critical section. -/
def directPreTrace (its averages pc pcss tau_max : Nat) (ss : Bool) : List Op :=
  [.getBox 0, .getBox 1] ++ (if ss then [.getBox 2, .getBox 3] else []) ++
  [.seqWait] ++
  ((List.range averages).flatMap fun avg =>
    directRoundTrace its averages avg pc pcss tau_max ss) ++
  [.setProgress ((its + 1) * averages)]

/-! ## Helper lemmas -/

lemma mul_range_bounds (B a b : Int) (hB : 1 ≤ B) (ha₁ : -B ≤ a) (ha₂ : a ≤ B - 1)
    (hb₁ : -B ≤ b) (hb₂ : b ≤ B - 1) (hex : ¬(a = -B ∧ b = -B)) :
    -(B * B - B) ≤ a * b ∧ a * b ≤ B * B - B := by
  constructor
  · rcases le_or_lt 0 a with ha | ha
    · rcases le_or_lt 0 b with hb | hb
      · nlinarith
      · have h : a * (-b) ≤ (B - 1) * B :=
          mul_le_mul ha₂ (by linarith) (by linarith) (by linarith)
        nlinarith
    · rcases le_or_lt 0 b with hb | hb
      · have h : (-a) * b ≤ B * (B - 1) :=
          mul_le_mul (by linarith) hb₂ hb (by linarith)
        nlinarith
      · nlinarith
  · rcases le_or_lt 0 a with ha | ha
    · rcases le_or_lt 0 b with hb | hb
      · have h : a * b ≤ (B - 1) * (B - 1) := mul_le_mul ha₂ hb₂ hb (by linarith)
        nlinarith
      · nlinarith
    · rcases le_or_lt 0 b with hb | hb
      · nlinarith
      · rcases eq_or_lt_of_le ha₁ with rfl | ha'
        · have hb' : -B < b := by
            rcases eq_or_lt_of_le hb₁ with rfl | h
            · exact absurd ⟨rfl, rfl⟩ hex
            · exact h
          have h : (-b) * B ≤ (B - 1) * B :=
            mul_le_mul (by linarith) le_rfl (by linarith) (by linarith)
          nlinarith
        · have h : (-a) * (-b) ≤ (B - 1) * B :=
            mul_le_mul (by linarith) (by linarith) (by linarith) (by linarith)
          nlinarith

lemma accumLoop_spec (g : Nat → Int) :
    ∀ (n : Nat) (d : Nat → Int) (o : Nat),
      accumLoop g n d o = if o < n then d o + g o else d o := by
  intro n
  induction n with
  | zero => intro d o; simp [accumLoop]
  | succ n ih =>
    intro d o
    simp only [accumLoop]
    rcases eq_or_ne o n with rfl | hne
    · rw [Function.update_same, ih]
      simp
    · rw [Function.update_noteq hne, ih]
      have hiff : (o < n + 1) ↔ (o < n) := by omega
      simp [hiff]

lemma foldl_add_range (g : Nat → Int) (d : Int) (n : Nat) :
    (List.range n).foldl (fun a t => a + g t) d = d + ∑ t ∈ Finset.range n, g t := by
  induction n with
  | zero => simp
  | succ n ih =>
    rw [List.range_succ, List.foldl_append, ih, Finset.sum_range_succ]
    simp [add_assoc]

lemma g1calc_real_part_sum (dest : Int) (samp_num : Nat) (D1 D2 : Nat → IQ)
    (tau shift : Nat) :
    g1calc_real_part dest samp_num D1 D2 tau shift
      = dest + ∑ t ∈ Finset.range samp_num,
          ((D1 t).i * (D2 (t + tau)).i + (D1 t).q * (D2 (t + tau)).q) / 2 ^ shift := by
  unfold g1calc_real_part
  exact foldl_add_range _ _ _

lemma g1calc_imag_part_sum (dest : Int) (samp_num : Nat) (D1 D2 : Nat → IQ)
    (tau shift : Nat) :
    g1calc_imag_part dest samp_num D1 D2 tau shift
      = dest + ∑ t ∈ Finset.range samp_num,
          ((D1 t).i * (D2 (t + tau)).q - (D1 t).q * (D2 (t + tau)).i) / 2 ^ shift := by
  unfold g1calc_imag_part
  exact foldl_add_range _ _ _

lemma g1RoundReal_spec (D1 D2 : Nat → IQ) (samp_num shift : Nat) :
    ∀ (n : Nat) (d : Nat → Int) (tau : Nat),
      g1RoundReal D1 D2 samp_num shift n d tau
        = if tau < n then g1calc_real_part (d tau) samp_num D1 D2 tau shift
          else d tau := by
  intro n
  induction n with
  | zero => intro d tau; simp [g1RoundReal]
  | succ n ih =>
    intro d tau
    simp only [g1RoundReal]
    rcases eq_or_ne tau n with rfl | hne
    · rw [Function.update_same, ih]
      simp
    · rw [Function.update_noteq hne, ih]
      have hiff : (tau < n + 1) ↔ (tau < n) := by omega
      simp [hiff]

lemma g1RoundImag_spec (D1 D2 : Nat → IQ) (samp_num shift : Nat) :
    ∀ (n : Nat) (d : Nat → Int) (tau : Nat),
      g1RoundImag D1 D2 samp_num shift n d tau
        = if tau < n then g1calc_imag_part (d tau) samp_num D1 D2 tau shift
          else d tau := by
  intro n
  induction n with
  | zero => intro d tau; simp [g1RoundImag]
  | succ n ih =>
    intro d tau
    simp only [g1RoundImag]
    rcases eq_or_ne tau n with rfl | hne
    · rw [Function.update_same, ih]
      simp
    · rw [Function.update_noteq hne, ih]
      have hiff : (tau < n + 1) ↔ (tau < n) := by omega
      simp [hiff]

/-! ## Claim C8: fixed-point multiply rounding -/

/-- C8: for every pair of in-range signed operands except the
most-negative-value-squared corner, `FIX_MPY_16 a b` equals
`((a*b) >> 15) + (((a*b) >> 14) & 1)` in exact integer arithmetic, and
likewise `FIX_MPY` with shifts 31 and 30; moreover
`FIX_MPY_16 0x7fff 0x7fff` differs from `0x7fff` by exactly one unit in
the last place. -/
theorem fix_mpy_round_to_nearest (a b c d : Int)
    (ha₁ : -32768 ≤ a) (ha₂ : a < 32768) (hb₁ : -32768 ≤ b) (hb₂ : b < 32768)
    (hab : ¬(a = -32768 ∧ b = -32768))
    (hc₁ : -2147483648 ≤ c) (hc₂ : c < 2147483648)
    (hd₁ : -2147483648 ≤ d) (hd₂ : d < 2147483648)
    (hcd : ¬(c = -2147483648 ∧ d = -2147483648)) :
    FIX_MPY_16 a b = a * b / 32768 + (a * b / 16384) % 2 ∧
    FIX_MPY c d = c * d / 2147483648 + (c * d / 1073741824) % 2 ∧
    FIX_MPY_16 32767 32767 - 32767 = -1 := by
  obtain ⟨hL, hU⟩ :=
    mul_range_bounds 32768 a b (by norm_num) ha₁ (by omega) hb₁ (by omega) hab
  obtain ⟨hL2, hU2⟩ :=
    mul_range_bounds 2147483648 c d (by norm_num) hc₁ (by omega) hd₁ (by omega) hcd
  refine ⟨?_, ?_, by decide⟩
  · show (a * b / 16384 / 2 + a * b / 16384 % 2 + 32768) % 65536 - 32768
        = a * b / 32768 + (a * b / 16384) % 2
    omega
  · show (c * d / 1073741824 / 2 + c * d / 1073741824 % 2 + 2147483648) % 4294967296
          - 2147483648
        = c * d / 2147483648 + (c * d / 1073741824) % 2
    omega

/-- Witness for C8 at `a = b = c = d = 1`. -/
theorem fix_mpy_round_to_nearest_witness :
    (-32768 : Int) ≤ 1 ∧ (1 : Int) < 32768 ∧ ¬((1 : Int) = -32768 ∧ (1 : Int) = -32768) ∧
    (FIX_MPY_16 1 1 = 1 * 1 / 32768 + (1 * 1 / 16384) % 2 ∧
     FIX_MPY 1 1 = 1 * 1 / 2147483648 + (1 * 1 / 1073741824) % 2 ∧
     FIX_MPY_16 32767 32767 - 32767 = -1) :=
  ⟨by norm_num, by norm_num, by decide,
   fix_mpy_round_to_nearest 1 1 1 1 (by norm_num) (by norm_num) (by norm_num)
     (by norm_num) (by decide) (by norm_num) (by norm_num) (by norm_num)
     (by norm_num) (by decide)⟩

/-! ## Claim C4: parameter-count validation -/

/-- C4 counterexample: the ring-buffer drain task `quantum_jumps_new.c`
performs no parameter-count validation at all — with an empty parameter
list (count 0, where the task consumes `param_list[0]`) it does not reject
but proceeds to interpret memory and access hardware, contradicting the
claim that every task of the core (in particular quantum_jumps_new)
rejects a wrong parameter count before interpreting values. -/
theorem quantum_jumps_new_no_param_check :
    ¬ rejectsWrongCount quantum_jumps_new_paramPhase 1 := by
  intro h
  obtain ⟨r, hr, -⟩ := h [] (by decide)
  simp [quantum_jumps_new_paramPhase] at hr

/-- C4 (amended): the correlation tasks (`g1_correlation_conv.c`,
`g2_correlation_conv.c`, `correlation_conv.c`, `g1_correlation.c`,
`g2_correlation.c`) validate the 32-bit parameter count as their first
action and return a non-zero status with a descriptive error on any
mismatch, before interpreting any parameter value or accessing hardware;
`quantum_jumps_new.c` performs no such validation
(`quantum_jumps_new_no_param_check`). -/
theorem correlation_tasks_reject_wrong_param_count :
    rejectsWrongCount g1_conv_paramPhase 5 ∧
    rejectsWrongCount g2_conv_paramPhase 5 ∧
    rejectsWrongCount corr_conv_paramPhase 9 ∧
    rejectsWrongCount g1_direct_paramPhase 7 ∧
    rejectsWrongCount g2_direct_paramPhase 7 := by
  refine ⟨fun p h => ⟨-1, ?_, by norm_num⟩, fun p h => ⟨-1, ?_, by norm_num⟩,
    fun p h => ⟨-1, ?_, by norm_num⟩, fun p h => ⟨-1, ?_, by norm_num⟩,
    fun p h => ⟨-1, ?_, by norm_num⟩⟩ <;>
  simp [g1_conv_paramPhase, g2_conv_paramPhase, corr_conv_paramPhase,
    g1_direct_paramPhase, g2_direct_paramPhase, h]

/-- Witness for the amended C4 at the empty parameter list. -/
theorem correlation_tasks_reject_wrong_param_count_witness :
    ([] : List Nat).length ≠ 5 ∧
    ∃ r : Int, g1_conv_paramPhase [] = some r ∧ r ≠ 0 :=
  ⟨by decide, correlation_tasks_reject_wrong_param_count.1 [] (by decide)⟩

/-! ## Claim C5: partial-result reporting of the drain task -/

/-- C5: after the drain loop of `quantum_jumps_new.c` exits, the task
reports an expected-versus-actual error exactly when the drained record
count (`count` words times 10 records per word) falls strictly short of
the requested repetitions, and in every case it publishes the `states`
buffer via `rtos_FinishDataBox` rather than discarding it. -/
theorem quantum_jumps_new_partial_result_reporting
    (repetitions : Nat) (f : Nat → Int) (polls : List Nat) :
    (Op.finishBox 0 ∈ qjNewRun repetitions f polls) ∧
    ((drainRun f polls ⟨0, []⟩).acc.length * 10 < repetitions →
      Op.errorCounts repetitions ((drainRun f polls ⟨0, []⟩).acc.length * 10)
        ∈ qjNewRun repetitions f polls) ∧
    (repetitions ≤ (drainRun f polls ⟨0, []⟩).acc.length * 10 →
      ∀ e a : Nat, Op.errorCounts e a ∉ qjNewRun repetitions f polls) := by
  unfold qjNewRun qjNewReportTrace
  refine ⟨by simp, fun h => ?_, fun h e a => ?_⟩
  · rw [if_pos h]
    simp
  · rw [if_neg (by omega)]
    simp

/-- Witness for C5 with an empty poll schedule (nothing drained) against
5 requested repetitions: the short-count error is emitted and the buffer
is still published. -/
theorem quantum_jumps_new_partial_result_reporting_witness :
    ((drainRun (fun _ => (0 : Int)) [] ⟨0, []⟩).acc.length * 10 < 5) ∧
    Op.errorCounts 5 ((drainRun (fun _ => (0 : Int)) [] ⟨0, []⟩).acc.length * 10)
      ∈ qjNewRun 5 (fun _ => (0 : Int)) [] ∧
    Op.finishBox 0 ∈ qjNewRun 5 (fun _ => (0 : Int)) [] :=
  ⟨by decide,
   (quantum_jumps_new_partial_result_reporting 5 (fun _ => (0 : Int)) []).2.1 (by decide),
   (quantum_jumps_new_partial_result_reporting 5 (fun _ => (0 : Int)) []).1⟩

/-! ## Claim C2 (amended): the g1 FFT-variant accumulation -/

/-- C2 (amended): after both channels are transformed in place by the
16-bit FFT, one call to `calc_g1` increases, for every bin `o < 1024`,
the real accumulator by exactly `T1[o].i*T2[o].i + T1[o].q*T2[o].q` and
the imaginary accumulator by exactly `T1[o].i*T2[o].q - T1[o].q*T2[o].i`
(the code conjugates the FIRST factor: `(a+bi)* (c+di) = (ac+bd) + i(ad-bc)`
with `a = T1[o].i`, `b = T1[o].q`, `c = T2[o].i`, `d = T2[o].q`), leaving
all accumulator entries at indices `≥ 1024` unchanged. The original claim's
imaginary increment `b*c - a*d` has the opposite sign
(`calc_g1_imag_sign_counterexample`). -/
theorem calc_g1_accumulation (dR dI : Nat → Int) (D1 D2 : Nat → IQ)
    (ref : Nat → Int) (o : Nat) (ho : o < 1024) :
    (calc_g1 dR dI D1 D2 ref).1 o
      = dR o + ((fix_fft_16 D1 ref o).i * (fix_fft_16 D2 ref o).i
                 + (fix_fft_16 D1 ref o).q * (fix_fft_16 D2 ref o).q) ∧
    (calc_g1 dR dI D1 D2 ref).2 o
      = dI o + ((fix_fft_16 D1 ref o).i * (fix_fft_16 D2 ref o).q
                 - (fix_fft_16 D1 ref o).q * (fix_fft_16 D2 ref o).i) ∧
    ∀ o' : Nat, 1024 ≤ o' →
      (calc_g1 dR dI D1 D2 ref).1 o' = dR o' ∧
      (calc_g1 dR dI D1 D2 ref).2 o' = dI o' := by
  unfold calc_g1
  simp only [accumLoop_spec]
  exact ⟨by simp [ho], by simp [ho],
    fun o' h => ⟨by simp [Nat.not_lt.mpr h], by simp [Nat.not_lt.mpr h]⟩⟩

/-- Witness for the amended C2 at bin 0 on zero inputs. -/
theorem calc_g1_accumulation_witness :
    (0 < 1024) ∧
    ((calc_g1 (fun _ => 0) (fun _ => 0) (fun _ => zeroIQ) (fun _ => zeroIQ)
        (fun _ => 0)).1 0
      = (fun _ : Nat => (0 : Int)) 0
        + ((fix_fft_16 (fun _ => zeroIQ) (fun _ => 0) 0).i
             * (fix_fft_16 (fun _ => zeroIQ) (fun _ => 0) 0).i
           + (fix_fft_16 (fun _ => zeroIQ) (fun _ => 0) 0).q
             * (fix_fft_16 (fun _ => zeroIQ) (fun _ => 0) 0).q)) :=
  ⟨by decide,
   (calc_g1_accumulation (fun _ => 0) (fun _ => 0) (fun _ => zeroIQ)
      (fun _ => zeroIQ) (fun _ => 0) 0 (by decide)).1⟩

/-! ## Claim C3: the g2 FFT-variant (product, single FFT, mirror index) -/

/-- C3: one call to `calc_g2` forms the product signal with real part
`D1[t].i*D2[t].i + D1[t].q*D2[t].q` and imaginary part
`D1[t].i*D2[t].q - D1[t].q*D2[t].i` (stored into `int32_t`), applies the
32-bit in-place FFT exactly once to it, and then, for every output index
`samp < 1024`, adds to the accumulators the complex product of the
transform at the mirror index `(1024 - samp) % 1024` and at `samp`; at
`samp = 0` the mirror index is 0 itself. -/
theorem calc_g2_mirror_accumulation (dR dI : Nat → Int) (D1 D2 : Nat → IQ)
    (ref : Nat → Int) (samp : Nat) (hs : samp < 1024) :
    (∀ t : Nat, signalProd D1 D2 t
      = ⟨toInt32 ((D1 t).i * (D2 t).i + (D1 t).q * (D2 t).q),
         toInt32 ((D1 t).i * (D2 t).q - (D1 t).q * (D2 t).i)⟩) ∧
    (calc_g2 dR dI D1 D2 ref).1 samp
      = dR samp
        + ((fix_fft (signalProd D1 D2) ref ((1024 - samp) % 1024)).i
             * (fix_fft (signalProd D1 D2) ref samp).i
           - (fix_fft (signalProd D1 D2) ref ((1024 - samp) % 1024)).q
             * (fix_fft (signalProd D1 D2) ref samp).q) ∧
    (calc_g2 dR dI D1 D2 ref).2 samp
      = dI samp
        + ((fix_fft (signalProd D1 D2) ref ((1024 - samp) % 1024)).i
             * (fix_fft (signalProd D1 D2) ref samp).q
           + (fix_fft (signalProd D1 D2) ref ((1024 - samp) % 1024)).q
             * (fix_fft (signalProd D1 D2) ref samp).i) ∧
    (1024 - 0) % 1024 = 0 := by
  refine ⟨fun t => rfl, ?_, ?_, by norm_num⟩ <;>
  · unfold calc_g2
    simp only [accumLoop_spec]
    simp [hs]

/-- Witness for C3 at `samp = 0` on zero inputs. -/
theorem calc_g2_mirror_accumulation_witness :
    (0 < 1024) ∧
    ((calc_g2 (fun _ => 0) (fun _ => 0) (fun _ => zeroIQ) (fun _ => zeroIQ)
        (fun _ => 0)).1 0
      = (fun _ : Nat => (0 : Int)) 0
        + ((fix_fft (signalProd (fun _ => zeroIQ) (fun _ => zeroIQ)) (fun _ => 0)
              ((1024 - 0) % 1024)).i
             * (fix_fft (signalProd (fun _ => zeroIQ) (fun _ => zeroIQ)) (fun _ => 0) 0).i
           - (fix_fft (signalProd (fun _ => zeroIQ) (fun _ => zeroIQ)) (fun _ => 0)
              ((1024 - 0) % 1024)).q
             * (fix_fft (signalProd (fun _ => zeroIQ) (fun _ => zeroIQ)) (fun _ => 0) 0).q)) :=
  ⟨by decide,
   (calc_g2_mirror_accumulation (fun _ => 0) (fun _ => 0) (fun _ => zeroIQ)
      (fun _ => zeroIQ) (fun _ => 0) 0 (by decide)).2.1⟩

/-! ## Claim C7: the g1 direct (windowed) variant -/

/-- C7: in the g1 direct variant, for every lag `tau < tau_max` (with
`tau_max ≤ 1024`) and every shift, one round adds to the real accumulator
at lag `tau` exactly the sum over `t < samp_num = 1024 - tau_max` of
`(D1[t].i*D2[t+tau].i + D1[t].q*D2[t+tau].q) >> shift`, and to the
imaginary accumulator the matching sum of
`(D1[t].i*D2[t+tau].q - D1[t].q*D2[t+tau].i) >> shift`, the arithmetic
shift applied to each per-`t` term individually before accumulation. -/
theorem g1_direct_round_sum (dR dI : Nat → Int) (D1 D2 : Nat → IQ)
    (tau_max shift tau : Nat) (h1 : tau < tau_max) (_h2 : tau_max ≤ 1024) :
    (g1DirectRound dR dI D1 D2 tau_max shift).1 tau
      = dR tau + ∑ t ∈ Finset.range (1024 - tau_max),
          ((D1 t).i * (D2 (t + tau)).i + (D1 t).q * (D2 (t + tau)).q) / 2 ^ shift ∧
    (g1DirectRound dR dI D1 D2 tau_max shift).2 tau
      = dI tau + ∑ t ∈ Finset.range (1024 - tau_max),
          ((D1 t).i * (D2 (t + tau)).q - (D1 t).q * (D2 (t + tau)).i) / 2 ^ shift := by
  unfold g1DirectRound
  dsimp only
  rw [g1RoundReal_spec, g1RoundImag_spec, if_pos h1, if_pos h1,
    g1calc_real_part_sum, g1calc_imag_part_sum]
  exact ⟨rfl, rfl⟩

/-- Witness for C7 at `tau = 0`, `tau_max = 1`, `shift = 0` on zero data. -/
theorem g1_direct_round_sum_witness :
    (0 < 1) ∧ (1 ≤ 1024) ∧
    ((g1DirectRound (fun _ => 0) (fun _ => 0) (fun _ => zeroIQ) (fun _ => zeroIQ)
        1 0).1 0
      = (fun _ : Nat => (0 : Int)) 0 + ∑ t ∈ Finset.range (1024 - 1),
          (((fun _ : Nat => zeroIQ) t).i * ((fun _ : Nat => zeroIQ) (t + 0)).i
            + ((fun _ : Nat => zeroIQ) t).q * ((fun _ : Nat => zeroIQ) (t + 0)).q) / 2 ^ 0) :=
  ⟨by decide, by decide,
   (g1_direct_round_sum (fun _ => 0) (fun _ => 0) (fun _ => zeroIQ) (fun _ => zeroIQ)
      1 0 0 (by decide) (by decide)).1⟩

/-! ## Claim C6: atomic publication of result-buffer groups -/

lemma convPreTrace_benign (its averages pc pcss : Nat) (ss : Bool) :
    ∀ op ∈ convPreTrace its averages pc pcss ss,
      op.isFinish = false ∧ op.isCrit = false := by
  cases ss
  all_goals intro op hop
  all_goals simp [convPreTrace, convRoundTrace] at hop
  all_goals casesm* _ ∨ _, _ ∧ _, Exists _
  all_goals subst_vars
  all_goals exact ⟨rfl, rfl⟩

lemma directPreTrace_benign (its averages pc pcss tau_max : Nat) (ss : Bool) :
    ∀ op ∈ directPreTrace its averages pc pcss tau_max ss,
      op.isFinish = false ∧ op.isCrit = false := by
  cases ss
  all_goals intro op hop
  all_goals simp [directPreTrace, directRoundTrace] at hop
  all_goals casesm* _ ∨ _, _ ∧ _, Exists _
  all_goals subst_vars
  all_goals exact ⟨rfl, rfl⟩

lemma pubGroup_all_finish (ss : Bool) :
    ∀ op ∈ pubGroup ss, op.isFinish = true ∧ op.isSuspension = false := by
  cases ss
  all_goals intro op hop
  all_goals simp [pubGroup] at hop
  all_goals casesm* _ ∨ _
  all_goals subst_vars
  all_goals exact ⟨rfl, rfl⟩

lemma convIterTrace_decomp (its averages pc pcss : Nat) (ss : Bool) :
    convIterTrace its averages pc pcss ss
      = convPreTrace its averages pc pcss ss
          ++ [Op.enterCrit] ++ pubGroup ss ++ [Op.exitCrit] := by
  cases ss <;> simp [convIterTrace, convPreTrace, pubGroup]

lemma directIterTrace_decomp (its averages pc pcss tau_max : Nat) (ss : Bool) :
    directIterTrace its averages pc pcss tau_max ss
      = directPreTrace its averages pc pcss tau_max ss
          ++ [Op.enterCrit] ++ pubGroup ss ++ [Op.exitCrit] := by
  cases ss <;> simp [directIterTrace, directPreTrace, pubGroup]

/-- C6: in every reporting iteration of every correlation task
(conv and direct variants), the whole trace of emitted operations is a
prefix containing no buffer publication and no critical-section boundary,
followed by exactly `enterCrit`, the finish calls of all result buffers of
the iteration (real and imaginary, plus the background pair when the
background measurement is requested), and `exitCrit` — with no suspension
point and no other operation between entering and leaving the critical
section, and nothing after it. -/
theorem correlation_tasks_atomic_publication
    (its averages pc pcss tau_max : Nat) (ss : Bool) :
    (∃ pre,
      convIterTrace its averages pc pcss ss
        = pre ++ [Op.enterCrit] ++ pubGroup ss ++ [Op.exitCrit] ∧
      (∀ op ∈ pre, op.isFinish = false ∧ op.isCrit = false) ∧
      (∀ op ∈ pubGroup ss, op.isFinish = true ∧ op.isSuspension = false)) ∧
    (∃ pre,
      directIterTrace its averages pc pcss tau_max ss
        = pre ++ [Op.enterCrit] ++ pubGroup ss ++ [Op.exitCrit] ∧
      (∀ op ∈ pre, op.isFinish = false ∧ op.isCrit = false) ∧
      (∀ op ∈ pubGroup ss, op.isFinish = true ∧ op.isSuspension = false)) :=
  ⟨⟨convPreTrace its averages pc pcss ss,
    convIterTrace_decomp its averages pc pcss ss,
    convPreTrace_benign its averages pc pcss ss,
    pubGroup_all_finish ss⟩,
   ⟨directPreTrace its averages pc pcss tau_max ss,
    directIterTrace_decomp its averages pc pcss tau_max ss,
    directPreTrace_benign its averages pc pcss tau_max ss,
    pubGroup_all_finish ss⟩⟩

/-! ## Claim C9: the FFT on the zero vector -/

lemma toInt16_zero : toInt16 0 = 0 := by decide

lemma toInt32_zero : toInt32 0 = 0 := by decide

lemma FIX_MPY_16_zero_right (w : Int) : FIX_MPY_16 w 0 = 0 := by
  simp [FIX_MPY_16, toInt16]

lemma FIX_MPY_zero_right (w : Int) : FIX_MPY w 0 = 0 := by
  simp [FIX_MPY, toInt32]

lemma FIX_MPY_16_zero_left (x : Int) : FIX_MPY_16 0 x = 0 := by
  simp [FIX_MPY_16, toInt16]

lemma FIX_MPY_zero_left (x : Int) : FIX_MPY 0 x = 0 := by
  simp [FIX_MPY, toInt32]

lemma update_const (f : Nat → IQ) (c : IQ) (h : ∀ k, f k = c) (a : Nat) :
    ∀ k, Function.update f a c k = c := by
  intro k
  rcases eq_or_ne k a with rfl | hne
  · rw [Function.update_same]
  · rw [Function.update_noteq hne]; exact h k

lemma swapIQ_const (f : Nat → IQ) (c : IQ) (h : ∀ k, f k = c) (a b : Nat) :
    ∀ k, swapIQ f a b k = c := by
  intro k
  unfold swapIQ
  rcases eq_or_ne k b with rfl | hb
  · rw [Function.update_same]; exact h a
  · rw [Function.update_noteq hb]
    rcases eq_or_ne k a with rfl | ha
    · rw [Function.update_same]; exact h b
    · rw [Function.update_noteq ha]; exact h k

lemma bitrevAux_const (c : IQ) :
    ∀ (fuel m mr : Nat) (f : Nat → IQ), (∀ k, f k = c) →
      ∀ k, bitrevAux fuel m mr f k = c := by
  intro fuel
  induction fuel with
  | zero => intro m mr f h k; exact h k
  | succ n ih =>
    intro m mr f h k
    simp only [bitrevAux]
    split
    · exact ih _ _ f h k
    · exact ih _ _ _ (swapIQ_const f c h _ _) k

lemma bfly_zero (wrap : Int → Int) (mpy : Int → Int → Int)
    (hw : wrap 0 = 0) (hm : ∀ w, mpy w 0 = 0) (wr wi : Int) (z j : Nat)
    (f : Nat → IQ) (h : ∀ k, f k = zeroIQ) :
    ∀ k, bfly wrap mpy wr wi z j f k = zeroIQ := by
  intro k
  simp [bfly, h, zeroIQ, hm, hw, Function.update_apply]

lemma zLoop_zero (wrap : Int → Int) (mpy : Int → Int → Int)
    (hw : wrap 0 = 0) (hm : ∀ w, mpy w 0 = 0) (wr wi : Int) (l zstep : Nat) :
    ∀ (count z : Nat) (f : Nat → IQ), (∀ k, f k = zeroIQ) →
      ∀ k, zLoop wrap mpy wr wi l zstep count z f k = zeroIQ := by
  intro count
  induction count with
  | zero => intro z f h k; exact h k
  | succ n ih =>
    intro z f h k
    exact ih _ _ (bfly_zero wrap mpy hw hm wr wi z (z + l) f h) k

lemma mLoop_zero (wrap : Int → Int) (mpy : Int → Int → Int)
    (hw : wrap 0 = 0) (hm : ∀ w, mpy w 0 = 0) (ref : Nat → Int)
    (l k0 zstep zcount : Nat) :
    ∀ (rem m : Nat) (f : Nat → IQ), (∀ k, f k = zeroIQ) →
      ∀ k, mLoop wrap mpy ref l k0 zstep zcount rem m f k = zeroIQ := by
  intro rem
  induction rem with
  | zero => intro m f h k; exact h k
  | succ n ih =>
    intro m f h k
    exact ih _ _ (zLoop_zero wrap mpy hw hm _ _ l zstep zcount m f h) k

lemma stagesAux_zero (wrap : Int → Int) (mpy : Int → Int → Int)
    (hw : wrap 0 = 0) (hm : ∀ w, mpy w 0 = 0) (ref : Nat → Int) :
    ∀ (rem s : Nat) (f : Nat → IQ), (∀ k, f k = zeroIQ) →
      ∀ k, stagesAux wrap mpy ref rem s f k = zeroIQ := by
  intro rem
  induction rem with
  | zero => intro s f h k; exact h k
  | succ n ih =>
    intro s f h k
    exact ih _ _ (mLoop_zero wrap mpy hw hm ref _ _ _ _ _ _ f h) k

lemma fix_fft_core_zero (wrap : Int → Int) (mpy : Int → Int → Int)
    (hw : wrap 0 = 0) (hm : ∀ w, mpy w 0 = 0) (ref : Nat → Int)
    (f : Nat → IQ) (h : ∀ k, f k = zeroIQ) :
    ∀ k, fix_fft_core wrap mpy f ref k = zeroIQ := by
  intro k
  exact stagesAux_zero wrap mpy hw hm ref 10 0 (bitrev f)
    (bitrevAux_const zeroIQ 1023 1 0 f h) k

/-- C9: for every reference table, applying the in-place fixed-point FFT
to an all-zero channel leaves every entry zero, and applying the transform
a second time with the same unmodified reference table again yields
bit-identical all-zero output; this holds for the 16-bit and the 32-bit
kernel alike. -/
theorem fix_fft_zero_idempotent (ref : Nat → Int) (ch : Nat → IQ)
    (h : ∀ k, ch k = zeroIQ) :
    (∀ k, fix_fft_16 ch ref k = zeroIQ) ∧
    (∀ k, fix_fft_16 (fix_fft_16 ch ref) ref k = zeroIQ) ∧
    (∀ k, fix_fft ch ref k = zeroIQ) ∧
    (∀ k, fix_fft (fix_fft ch ref) ref k = zeroIQ) := by
  have h16 : ∀ (g : Nat → IQ), (∀ k, g k = zeroIQ) → ∀ k, fix_fft_16 g ref k = zeroIQ :=
    fun g hg =>
      fix_fft_core_zero toInt16 FIX_MPY_16 toInt16_zero FIX_MPY_16_zero_right ref g hg
  have h32 : ∀ (g : Nat → IQ), (∀ k, g k = zeroIQ) → ∀ k, fix_fft g ref k = zeroIQ :=
    fun g hg =>
      fix_fft_core_zero toInt32 FIX_MPY toInt32_zero FIX_MPY_zero_right ref g hg
  exact ⟨h16 ch h, h16 _ (h16 ch h), h32 ch h, h32 _ (h32 ch h)⟩

/-- Witness for C9 on the all-zero channel and all-zero reference table. -/
theorem fix_fft_zero_idempotent_witness :
    ((fun _ : Nat => zeroIQ) 5 = zeroIQ) ∧
    (∀ k, fix_fft_16 (fun _ => zeroIQ) (fun _ => 0) k = zeroIQ) ∧
    (∀ k, fix_fft_16 (fix_fft_16 (fun _ => zeroIQ) (fun _ => 0)) (fun _ => 0) k = zeroIQ) :=
  ⟨rfl,
   (fix_fft_zero_idempotent (fun _ => 0) (fun _ => zeroIQ) (fun _ => rfl)).1,
   (fix_fft_zero_idempotent (fun _ => 0) (fun _ => zeroIQ) (fun _ => rfl)).2.1⟩

/-! ## The FFT on a constant channel with an all-zero reference table

With a zero reference table both twiddle factors are 0, so every butterfly
writes the halved passthrough sample into both of its slots; on a constant
channel every stage therefore halves the constant. This gives closed-form
transform values used to refute the claimed sign of the g1 imaginary
accumulation. -/

lemma bfly_zero_twiddle (wrap : Int → Int) (mpy : Int → Int → Int)
    (hw : wrap 0 = 0) (hm : ∀ x, mpy 0 x = 0) (z j : Nat) (f : Nat → IQ) :
    bfly wrap mpy 0 0 z j f
      = Function.update (Function.update f j (halfIQ wrap (f z))) z
          (halfIQ wrap (f z)) := by
  funext k
  simp [bfly, hm, hw, halfIQ]

lemma zLoop_zero_twiddle (wrap : Int → Int) (mpy : Int → Int → Int)
    (hw : wrap 0 = 0) (hm : ∀ x, mpy 0 x = 0) (l zstep : Nat)
    (hl : 0 < l) (hlz : l < zstep) (c : IQ) :
    ∀ (count z : Nat) (f : Nat → IQ),
      (∀ t, t < count → f (z + t * zstep) = c) →
      (∀ t, t < count →
         zLoop wrap mpy 0 0 l zstep count z f (z + t * zstep) = halfIQ wrap c ∧
         zLoop wrap mpy 0 0 l zstep count z f (z + t * zstep + l) = halfIQ wrap c) ∧
      (∀ k, (∀ t, t < count → k ≠ z + t * zstep ∧ k ≠ z + t * zstep + l) →
         zLoop wrap mpy 0 0 l zstep count z f k = f k) := by
  intro count
  induction count with
  | zero =>
    intro z f _
    exact ⟨fun t ht => absurd ht (Nat.not_lt_zero t), fun k _ => rfl⟩
  | succ n ih =>
    intro z f h
    have hfz : f z = c := by simpa using h 0 (Nat.succ_pos n)
    have hstep : zLoop wrap mpy 0 0 l zstep (n + 1) z f
        = zLoop wrap mpy 0 0 l zstep n (z + zstep)
            (Function.update (Function.update f (z + l) (halfIQ wrap c)) z
              (halfIQ wrap c)) := by
      simp only [zLoop]
      rw [bfly_zero_twiddle wrap mpy hw hm, hfz]
    set f' := Function.update (Function.update f (z + l) (halfIQ wrap c)) z
      (halfIQ wrap c) with hf'
    have hread : ∀ t, t < n → f' (z + zstep + t * zstep) = c := by
      intro t ht
      have hx : 0 ≤ t * zstep := Nat.zero_le _
      have hne1 : z + zstep + t * zstep ≠ z := by omega
      have hne2 : z + zstep + t * zstep ≠ z + l := by omega
      rw [hf', Function.update_noteq hne1, Function.update_noteq hne2]
      have harith : z + zstep + t * zstep = z + (t + 1) * zstep := by ring
      rw [harith]
      exact h (t + 1) (by omega)
    obtain ⟨ihA, ihB⟩ := ih (z + zstep) f' hread
    constructor
    · intro t ht
      cases t with
      | zero =>
        simp only [Nat.zero_mul, Nat.add_zero]
        constructor
        · rw [hstep, ihB z ?_]
          · rw [hf', Function.update_same]
          · intro t' ht'
            have hx : 0 ≤ t' * zstep := Nat.zero_le _
            exact ⟨by omega, by omega⟩
        · rw [hstep, ihB (z + l) ?_]
          · rw [hf', Function.update_noteq (by omega), Function.update_same]
          · intro t' ht'
            have hx : 0 ≤ t' * zstep := Nat.zero_le _
            exact ⟨by omega, by omega⟩
      | succ t' =>
        have harith : z + (t' + 1) * zstep = z + zstep + t' * zstep := by ring
        rw [hstep, harith]
        exact ihA t' (by omega)
    · intro k hk
      have hk0 := hk 0 (Nat.succ_pos n)
      simp only [Nat.zero_mul, Nat.add_zero] at hk0
      have havoid : ∀ t, t < n → k ≠ z + zstep + t * zstep ∧ k ≠ z + zstep + t * zstep + l := by
        intro t ht
        have hkt := hk (t + 1) (by omega)
        constructor
        · intro heq
          apply hkt.1
          rw [heq]; ring
        · intro heq
          apply hkt.2
          rw [heq]; ring
      rw [hstep, ihB k havoid, hf', Function.update_noteq hk0.1,
        Function.update_noteq hk0.2]

lemma mLoop_const_zero_ref (wrap : Int → Int) (mpy : Int → Int → Int)
    (hw : wrap 0 = 0) (hm : ∀ x, mpy 0 x = 0) (l k0 zstep zcount : Nat)
    (hl : 0 < l) (hzs : zstep = 2 * l) (hzc : zcount * zstep = 1024) (c : IQ) :
    ∀ (rem m0 : Nat) (f : Nat → IQ), m0 + rem = l →
      (∀ idx, idx < 1024 →
        (idx % zstep < m0 ∨ (l ≤ idx % zstep ∧ idx % zstep < l + m0)) →
        f idx = halfIQ wrap c) →
      (∀ idx, idx < 1024 →
        ((m0 ≤ idx % zstep ∧ idx % zstep < l) ∨ l + m0 ≤ idx % zstep) →
        f idx = c) →
      ∀ idx, idx < 1024 →
        mLoop wrap mpy (fun _ => 0) l k0 zstep zcount rem m0 f idx
          = halfIQ wrap c := by
  intro rem
  induction rem with
  | zero =>
    intro m0 f hml hA _ idx hidx
    have hr : idx % zstep < zstep := Nat.mod_lt _ (by omega)
    exact hA idx hidx (by omega)
  | succ n ih =>
    intro m0 f hml hA hB idx hidx
    have hm0l : m0 < l := by omega
    have hzpos : 0 < zstep := by omega
    have hzcpos : 0 < zcount :=
      Nat.pos_of_ne_zero fun h0 => by
        rw [h0, Nat.zero_mul] at hzc
        exact absurd hzc (by norm_num)
    have hzle : zstep ≤ 1024 := by
      have hone : 1 * zstep ≤ zcount * zstep := Nat.mul_le_mul_right zstep hzcpos
      rw [one_mul] at hone
      omega
    have hstep : mLoop wrap mpy (fun _ => 0) l k0 zstep zcount (n + 1) m0 f
        = mLoop wrap mpy (fun _ => 0) l k0 zstep zcount n (m0 + 1)
            (zLoop wrap mpy 0 0 l zstep zcount m0 f) := by
      simp only [mLoop]
      norm_num [hw]
    have hread : ∀ t, t < zcount → f (m0 + t * zstep) = c := by
      intro t ht
      have h1 : t * zstep ≤ (zcount - 1) * zstep :=
        Nat.mul_le_mul_right _ (by omega)
      have h2 : (zcount - 1) * zstep = 1024 - zstep := by
        rw [Nat.sub_mul, one_mul, hzc]
      have hlt : m0 + t * zstep < 1024 := by omega
      have hmod : (m0 + t * zstep) % zstep = m0 := by
        rw [Nat.add_mul_mod_self_right, Nat.mod_eq_of_lt (by omega)]
      exact hB _ hlt (by rw [hmod]; exact Or.inl ⟨le_rfl, hm0l⟩)
    obtain ⟨hZA, hZB⟩ :=
      zLoop_zero_twiddle wrap mpy hw hm l zstep hl (by omega) c zcount m0 f hread
    rw [hstep]
    have havoid : ∀ j : Nat, j % zstep ≠ m0 → j % zstep ≠ m0 + l →
        ∀ t, t < zcount → j ≠ m0 + t * zstep ∧ j ≠ m0 + t * zstep + l := by
      intro j hne1 hne2 t ht
      constructor
      · intro heq
        apply hne1
        rw [heq, Nat.add_mul_mod_self_right, Nat.mod_eq_of_lt (by omega)]
      · intro heq
        apply hne2
        have harith : m0 + t * zstep + l = m0 + l + t * zstep := by ring
        rw [heq, harith, Nat.add_mul_mod_self_right, Nat.mod_eq_of_lt (by omega)]
    have hwritten1 : ∀ j : Nat, j < 1024 → j % zstep = m0 →
        zLoop wrap mpy 0 0 l zstep zcount m0 f j = halfIQ wrap c := by
      intro j hj hmod
      have hdm := Nat.div_add_mod j zstep
      have htlt : j / zstep < zcount :=
        (Nat.div_lt_iff_lt_mul hzpos).mpr (by omega)
      have hrepr : j = m0 + (j / zstep) * zstep := by
        have : zstep * (j / zstep) = (j / zstep) * zstep := Nat.mul_comm _ _
        omega
      rw [hrepr]
      exact (hZA (j / zstep) htlt).1
    have hwritten2 : ∀ j : Nat, j < 1024 → j % zstep = m0 + l →
        zLoop wrap mpy 0 0 l zstep zcount m0 f j = halfIQ wrap c := by
      intro j hj hmod
      have hdm := Nat.div_add_mod j zstep
      have htlt : j / zstep < zcount :=
        (Nat.div_lt_iff_lt_mul hzpos).mpr (by omega)
      have hrepr : j = m0 + (j / zstep) * zstep + l := by
        have : zstep * (j / zstep) = (j / zstep) * zstep := Nat.mul_comm _ _
        omega
      rw [hrepr]
      exact (hZA (j / zstep) htlt).2
    apply ih (m0 + 1) _ (by omega) ?_ ?_ idx hidx
    · -- new invariant A at m0 + 1
      intro j hj hcond
      rcases Nat.decEq (j % zstep) m0 with hne1 | heq1
      · rcases Nat.decEq (j % zstep) (m0 + l) with hne2 | heq2
        · rw [hZB j (havoid j hne1 (by omega))]
          have hr : j % zstep < zstep := Nat.mod_lt _ (by omega)
          exact hA j hj (by omega)
        · exact hwritten2 j hj (by omega)
      · exact hwritten1 j hj heq1
    · -- new invariant B at m0 + 1
      intro j hj hcond
      have hne1 : j % zstep ≠ m0 := by omega
      have hne2 : j % zstep ≠ m0 + l := by omega
      rw [hZB j (havoid j hne1 hne2)]
      exact hB j hj (by omega)

lemma stagesAux_const_zero_ref (wrap : Int → Int) (mpy : Int → Int → Int)
    (hw : wrap 0 = 0) (hm : ∀ x, mpy 0 x = 0) :
    ∀ (rem s : Nat) (f : Nat → IQ) (c : IQ), s + rem = 10 →
      (∀ idx, idx < 1024 → f idx = c) →
      ∀ idx, idx < 1024 →
        stagesAux wrap mpy (fun _ => 0) rem s f idx = (halfIQ wrap)^[rem] c := by
  intro rem
  induction rem with
  | zero =>
    intro s f c _ hf idx hidx
    simpa using hf idx hidx
  | succ n ih =>
    intro s f c hs hf idx hidx
    have hzs : 2 ^ (s + 1) = 2 * 2 ^ s := by rw [pow_succ]; ring
    have hzc : 2 ^ (9 - s) * 2 ^ (s + 1) = 1024 := by
      rw [← pow_add]
      have h10 : 9 - s + (s + 1) = 10 := by omega
      rw [h10]; norm_num
    have hmid :=
      mLoop_const_zero_ref wrap mpy hw hm (2 ^ s) (9 - s) (2 ^ (s + 1)) (2 ^ (9 - s))
        (pow_pos (by norm_num) s) hzs hzc c (2 ^ s) 0 f (Nat.zero_add _)
        (fun idx hidx hcond => by omega)
        (fun idx hidx _ => hf idx hidx)
    simp only [stagesAux]
    rw [ih (s + 1) _ (halfIQ wrap c) (by omega) hmid idx hidx,
      Function.iterate_succ_apply]

lemma fix_fft_core_const_zero_ref (wrap : Int → Int) (mpy : Int → Int → Int)
    (hw : wrap 0 = 0) (hm : ∀ x, mpy 0 x = 0) (c : IQ) :
    ∀ idx, idx < 1024 →
      fix_fft_core wrap mpy (fun _ => c) (fun _ => 0) idx = (halfIQ wrap)^[10] c := by
  intro idx hidx
  unfold fix_fft_core
  exact stagesAux_const_zero_ref wrap mpy hw hm 10 0 (bitrev fun _ => c) c rfl
    (fun k _ => bitrevAux_const c 1023 1 0 _ (fun _ => rfl) k) idx hidx

/-- C2 counterexample: on the constant channels `D1 ≡ (1024, 0)`,
`D2 ≡ (0, 1024)` with the all-zero reference table, both transforms are
constant (`T1 ≡ (1, 0)`, `T2 ≡ (0, 1)`), the code's `calc_g1` adds `+1`
to the imaginary accumulator at bin 0, while the claimed increment
`D1[0].q*D2[0].i - D1[0].i*D2[0].q` over the transformed bins equals `-1`:
the claim's imaginary-part convention has the wrong sign. -/
theorem calc_g1_imag_sign_counterexample :
    (calc_g1 (fun _ => 0) (fun _ => 0) (fun _ => ⟨1024, 0⟩) (fun _ => ⟨0, 1024⟩)
        (fun _ => 0)).2 0 = 1 ∧
    (fix_fft_16 (fun _ => (⟨1024, 0⟩ : IQ)) (fun _ => 0) 0).q
        * (fix_fft_16 (fun _ => (⟨0, 1024⟩ : IQ)) (fun _ => 0) 0).i
      - (fix_fft_16 (fun _ => (⟨1024, 0⟩ : IQ)) (fun _ => 0) 0).i
        * (fix_fft_16 (fun _ => (⟨0, 1024⟩ : IQ)) (fun _ => 0) 0).q = -1 := by
  have hT1 : fix_fft_16 (fun _ => (⟨1024, 0⟩ : IQ)) (fun _ => 0) 0 = ⟨1, 0⟩ := by
    unfold fix_fft_16
    rw [fix_fft_core_const_zero_ref toInt16 FIX_MPY_16 toInt16_zero
      FIX_MPY_16_zero_left ⟨1024, 0⟩ 0 (by norm_num)]
    decide
  have hT2 : fix_fft_16 (fun _ => (⟨0, 1024⟩ : IQ)) (fun _ => 0) 0 = ⟨0, 1⟩ := by
    unfold fix_fft_16
    rw [fix_fft_core_const_zero_ref toInt16 FIX_MPY_16 toInt16_zero
      FIX_MPY_16_zero_left ⟨0, 1024⟩ 0 (by norm_num)]
    decide
  constructor
  · unfold calc_g1
    dsimp only
    rw [accumLoop_spec, if_pos (by norm_num : (0 : Nat) < 1024), hT1, hT2]
    norm_num
  · rw [hT1, hT2]
    norm_num

/-! ## Claim C10: the direct-variant background round reads stale samples -/

/-- Stale-background dependence of the g1 direct task
(`g1_correlation.c`): two signal acquisitions that differ only at channel
indices `≥ samp_num` yield different background accumulators for the same
background data. -/
lemma g1_direct_bg_dependence (tau_max tau shift : Nat)
    (h1 : 1 ≤ tau) (h2 : tau < tau_max) (h3 : tau_max ≤ 1023) :
    ∃ bg sigA sigB : Nat → IQ,
      (∀ idx, idx < 1024 - tau_max → sigA idx = sigB idx) ∧
      (g1DirectRound (fun _ => 0) (fun _ => 0)
          (bgOverlay (1024 - tau_max) (fun _ => ⟨1, 0⟩) (fun _ => ⟨1, 0⟩))
          (bgOverlay (1024 - tau_max) bg sigA) tau_max shift).1 tau
        ≠ (g1DirectRound (fun _ => 0) (fun _ => 0)
            (bgOverlay (1024 - tau_max) (fun _ => ⟨1, 0⟩) (fun _ => ⟨1, 0⟩))
            (bgOverlay (1024 - tau_max) bg sigB) tau_max shift).1 tau := by
  set s := 1024 - tau_max with hs
  have hs1 : 1 ≤ s := by omega
  have hstau : ¬(s - 1 + tau < s) := by omega
  have hpow : ((2 : Int) ^ shift) ≠ 0 := pow_ne_zero shift (by norm_num)
  refine ⟨fun _ => zeroIQ, fun _ => zeroIQ,
    fun idx => if idx < s then zeroIQ else ⟨2 ^ shift, 0⟩,
    fun idx hidx => by simp [hidx], ?_⟩
  have hch1 : ∀ x, bgOverlay s (fun _ => (⟨1, 0⟩ : IQ)) (fun _ => ⟨1, 0⟩) x
      = ⟨1, 0⟩ := by
    intro x; simp [bgOverlay]
  have hchA : ∀ x, bgOverlay s (fun _ => zeroIQ) (fun _ => zeroIQ) x = zeroIQ := by
    intro x; simp [bgOverlay]
  have hchB : ∀ x, bgOverlay s (fun _ => zeroIQ)
      (fun idx => if idx < s then zeroIQ else ⟨2 ^ shift, 0⟩) x
      = if x < s then zeroIQ else ⟨2 ^ shift, 0⟩ := by
    intro x; by_cases hx : x < s <;> simp [bgOverlay, hx]
  have hL : (g1DirectRound (fun _ => 0) (fun _ => 0)
      (bgOverlay s (fun _ => ⟨1, 0⟩) (fun _ => ⟨1, 0⟩))
      (bgOverlay s (fun _ => zeroIQ) (fun _ => zeroIQ)) tau_max shift).1 tau
      = 0 := by
    unfold g1DirectRound
    dsimp only
    rw [g1RoundReal_spec, if_pos h2, g1calc_real_part_sum]
    rw [Finset.sum_congr rfl (fun t _ => by rw [hch1, hchA] : ∀ t ∈ Finset.range (1024 - tau_max),
      ((bgOverlay s (fun _ => (⟨1, 0⟩ : IQ)) (fun _ => ⟨1, 0⟩) t).i
          * (bgOverlay s (fun _ => zeroIQ) (fun _ => zeroIQ) (t + tau)).i
        + (bgOverlay s (fun _ => (⟨1, 0⟩ : IQ)) (fun _ => ⟨1, 0⟩) t).q
          * (bgOverlay s (fun _ => zeroIQ) (fun _ => zeroIQ) (t + tau)).q) / 2 ^ shift
      = ((⟨1, 0⟩ : IQ).i * zeroIQ.i + (⟨1, 0⟩ : IQ).q * zeroIQ.q) / 2 ^ shift)]
    simp [zeroIQ]
  have hR : (1 : Int) ≤ (g1DirectRound (fun _ => 0) (fun _ => 0)
      (bgOverlay s (fun _ => ⟨1, 0⟩) (fun _ => ⟨1, 0⟩))
      (bgOverlay s (fun _ => zeroIQ)
        (fun idx => if idx < s then zeroIQ else ⟨2 ^ shift, 0⟩)) tau_max shift).1 tau := by
    unfold g1DirectRound
    dsimp only
    rw [g1RoundReal_spec, if_pos h2, g1calc_real_part_sum]
    have hterm : ∀ t : Nat,
        ((bgOverlay s (fun _ => (⟨1, 0⟩ : IQ)) (fun _ => ⟨1, 0⟩) t).i
            * (bgOverlay s (fun _ => zeroIQ)
                (fun idx => if idx < s then zeroIQ else ⟨2 ^ shift, 0⟩) (t + tau)).i
          + (bgOverlay s (fun _ => (⟨1, 0⟩ : IQ)) (fun _ => ⟨1, 0⟩) t).q
            * (bgOverlay s (fun _ => zeroIQ)
                (fun idx => if idx < s then zeroIQ else ⟨2 ^ shift, 0⟩) (t + tau)).q)
          / 2 ^ shift
        = if t + tau < s then 0 else 1 := by
      intro t
      rw [hch1, hchB]
      by_cases hx : t + tau < s
      · simp [hx, zeroIQ]
      · rw [if_neg hx, if_neg hx]
        show ((1 : Int) * 2 ^ shift + 0 * 0) / 2 ^ shift = 1
        rw [one_mul, mul_zero, add_zero, Int.ediv_self hpow]
    rw [Finset.sum_congr rfl (fun t _ => hterm t)]
    have hnn : ∀ i ∈ Finset.range (1024 - tau_max),
        (0 : Int) ≤ (fun t => if t + tau < s then (0 : Int) else 1) i := by
      intro i _
      by_cases hx : i + tau < s <;> simp [hx]
    have hmem : s - 1 ∈ Finset.range (1024 - tau_max) :=
      Finset.mem_range.mpr (by omega)
    have hsum := Finset.single_le_sum hnn hmem
    rw [if_neg hstau] at hsum
    simpa using hsum
  rw [hL]
  intro heq
  rw [← heq] at hR
  exact absurd hR (by norm_num)

lemma g2calc_real_part_sum (dest : Int) (samp_num : Nat) (D1 D2 : Nat → IQ)
    (tau shift : Nat) :
    g2calc_real_part dest samp_num D1 D2 tau shift
      = dest + ∑ t ∈ Finset.range samp_num,
          ((D1 t).i * (D1 (t + tau)).i * (D2 (t + tau)).i * (D2 t).i
           - (D1 t).i * (D1 (t + tau)).i * (D2 (t + tau)).q * (D2 t).q
           + (D1 t).q * (D1 (t + tau)).i * (D2 (t + tau)).q * (D2 t).i
           + (D1 t).q * (D1 (t + tau)).i * (D2 (t + tau)).i * (D2 t).q
           + (D1 t).i * (D1 (t + tau)).q * (D2 (t + tau)).q * (D2 t).i
           + (D1 t).i * (D1 (t + tau)).q * (D2 (t + tau)).i * (D2 t).q
           - (D1 t).q * (D1 (t + tau)).q * (D2 (t + tau)).i * (D2 t).i
           + (D1 t).q * (D1 (t + tau)).q * (D2 (t + tau)).q * (D2 t).q) / 2 ^ shift := by
  unfold g2calc_real_part
  exact foldl_add_range _ _ _

lemma g2RoundReal_spec (D1 D2 : Nat → IQ) (samp_num shift : Nat) :
    ∀ (n : Nat) (d : Nat → Int) (tau : Nat),
      g2RoundReal D1 D2 samp_num shift n d tau
        = if tau < n then g2calc_real_part (d tau) samp_num D1 D2 tau shift
          else d tau := by
  intro n
  induction n with
  | zero => intro d tau; simp [g2RoundReal]
  | succ n ih =>
    intro d tau
    simp only [g2RoundReal]
    rcases eq_or_ne tau n with rfl | hne
    · rw [Function.update_same, ih]
      simp
    · rw [Function.update_noteq hne, ih]
      have hiff : (tau < n + 1) ↔ (tau < n) := by omega
      simp [hiff]

/-- On a constant-`(1,0)` channel 1 and a channel 2 that is `(1,0)` below
`s` and a constant `v` from `s` on, the eight-term g2 real summand at
`t < s` collapses to `(if t + tau < s then 1 else v.i) >> shift`. -/
lemma g2term_eval (s tau shift : Nat) (ch1 ch2 : Nat → IQ) (v : IQ)
    (hc1 : ∀ x, ch1 x = ⟨1, 0⟩)
    (hc2 : ∀ x, ch2 x = if x < s then ⟨1, 0⟩ else v)
    (t : Nat) (ht : t < s) :
    ((ch1 t).i * (ch1 (t + tau)).i * (ch2 (t + tau)).i * (ch2 t).i
     - (ch1 t).i * (ch1 (t + tau)).i * (ch2 (t + tau)).q * (ch2 t).q
     + (ch1 t).q * (ch1 (t + tau)).i * (ch2 (t + tau)).q * (ch2 t).i
     + (ch1 t).q * (ch1 (t + tau)).i * (ch2 (t + tau)).i * (ch2 t).q
     + (ch1 t).i * (ch1 (t + tau)).q * (ch2 (t + tau)).q * (ch2 t).i
     + (ch1 t).i * (ch1 (t + tau)).q * (ch2 (t + tau)).i * (ch2 t).q
     - (ch1 t).q * (ch1 (t + tau)).q * (ch2 (t + tau)).i * (ch2 t).i
     + (ch1 t).q * (ch1 (t + tau)).q * (ch2 (t + tau)).q * (ch2 t).q) / 2 ^ shift
      = (if t + tau < s then (1 : Int) else v.i) / 2 ^ shift := by
  rw [hc1, hc1, hc2, hc2, if_pos ht]
  by_cases hx : t + tau < s
  · rw [if_pos hx, if_pos hx]
    norm_num
  · rw [if_neg hx, if_neg hx]
    dsimp only
    congr 1
    ring

/-- Stale-background dependence of the g2 direct task
(`g2_correlation.c`): two signal acquisitions that differ only at channel
indices `≥ samp_num` yield different background accumulators for the same
background data, through the four-factor correlator. -/
lemma g2_direct_bg_dependence (tau_max tau shift : Nat)
    (h1 : 1 ≤ tau) (h2 : tau < tau_max) (h3 : tau_max ≤ 1023) :
    ∃ bg sigA sigB : Nat → IQ,
      (∀ idx, idx < 1024 - tau_max → sigA idx = sigB idx) ∧
      (g2DirectRound (fun _ => 0) (fun _ => 0)
          (bgOverlay (1024 - tau_max) (fun _ => ⟨1, 0⟩) (fun _ => ⟨1, 0⟩))
          (bgOverlay (1024 - tau_max) bg sigA) tau_max shift).1 tau
        ≠ (g2DirectRound (fun _ => 0) (fun _ => 0)
            (bgOverlay (1024 - tau_max) (fun _ => ⟨1, 0⟩) (fun _ => ⟨1, 0⟩))
            (bgOverlay (1024 - tau_max) bg sigB) tau_max shift).1 tau := by
  set s := 1024 - tau_max with hs
  have hs1 : 1 ≤ s := by omega
  have hstau : ¬(s - 1 + tau < s) := by omega
  have hpow : ((2 : Int) ^ shift) ≠ 0 := pow_ne_zero shift (by norm_num)
  refine ⟨fun _ => ⟨1, 0⟩, fun _ => ⟨0, 0⟩,
    fun idx => if idx < s then ⟨0, 0⟩ else ⟨2 ^ shift, 0⟩,
    fun idx hidx => by simp [hidx], ?_⟩
  have hch1 : ∀ x, bgOverlay s (fun _ => (⟨1, 0⟩ : IQ)) (fun _ => ⟨1, 0⟩) x
      = ⟨1, 0⟩ := by
    intro x; simp [bgOverlay]
  have hchA : ∀ x, bgOverlay s (fun _ => (⟨1, 0⟩ : IQ)) (fun _ => ⟨0, 0⟩) x
      = if x < s then (⟨1, 0⟩ : IQ) else ⟨0, 0⟩ := by
    intro x; by_cases hx : x < s <;> simp [bgOverlay, hx]
  have hchB : ∀ x, bgOverlay s (fun _ => (⟨1, 0⟩ : IQ))
      (fun idx => if idx < s then (⟨0, 0⟩ : IQ) else ⟨2 ^ shift, 0⟩) x
      = if x < s then (⟨1, 0⟩ : IQ) else ⟨2 ^ shift, 0⟩ := by
    intro x; by_cases hx : x < s <;> simp [bgOverlay, hx]
  unfold g2DirectRound
  dsimp only
  rw [g2RoundReal_spec, g2RoundReal_spec, if_pos h2, if_pos h2,
    g2calc_real_part_sum, g2calc_real_part_sum]
  rw [Finset.sum_congr rfl (fun t ht =>
      g2term_eval s tau shift _ _ ⟨0, 0⟩ hch1 hchA t
        (by have := Finset.mem_range.mp ht; omega)),
    Finset.sum_congr rfl (fun t ht =>
      g2term_eval s tau shift _ _ ⟨2 ^ shift, 0⟩ hch1 hchB t
        (by have := Finset.mem_range.mp ht; omega))]
  dsimp only
  have hsplit : ∀ t : Nat,
      (if t + tau < s then (1 : Int) else 2 ^ shift) / 2 ^ shift
        = (if t + tau < s then (1 : Int) else 0) / 2 ^ shift
          + (if t + tau < s then 0 else 1) := by
    intro t
    by_cases hx : t + tau < s
    · simp [hx]
    · simp [hx, Int.ediv_self hpow]
  rw [Finset.sum_congr rfl (fun t _ => hsplit t), Finset.sum_add_distrib]
  have hnn : ∀ i ∈ Finset.range (1024 - tau_max),
      (0 : Int) ≤ (fun t => if t + tau < s then (0 : Int) else 1) i := by
    intro i _
    by_cases hx : i + tau < s <;> simp [hx]
  have hmem : s - 1 ∈ Finset.range (1024 - tau_max) :=
    Finset.mem_range.mpr (by omega)
  have hP := Finset.single_le_sum hnn hmem
  rw [if_neg hstau] at hP
  intro heq
  have h0 : (0 : Int) + ∑ t ∈ Finset.range (1024 - tau_max),
      (if t + tau < s then (1 : Int) else 0) / 2 ^ shift
      = 0 + (∑ t ∈ Finset.range (1024 - tau_max),
          (if t + tau < s then (1 : Int) else 0) / 2 ^ shift
        + ∑ t ∈ Finset.range (1024 - tau_max),
          (if t + tau < s then (0 : Int) else 1)) := heq
  have : (∑ t ∈ Finset.range (1024 - tau_max),
      (if t + tau < s then (0 : Int) else 1)) = 0 := by linarith
  rw [this] at hP
  exact absurd hP (by norm_num)

/-- C10: in the g1 and g2 direct (windowed) tasks the background
acquisition fetches only `samp_num = 1024 - tau_max` samples per channel,
while the background correlation at lag `tau ≥ 1` reads channel entries up
to index `samp_num - 1 + tau ≥ samp_num`; hence, in both tasks, the
published background accumulator depends on channel-buffer entries at
indices `≥ samp_num` that still hold values written by the preceding
signal acquisition: two signal acquisitions that differ only at indices
`≥ samp_num` yield different background results for the same background
data. -/
theorem direct_background_stale_dependence (tau_max tau shift : Nat)
    (h1 : 1 ≤ tau) (h2 : tau < tau_max) (h3 : tau_max ≤ 1023) :
    (∃ bg sigA sigB : Nat → IQ,
      (∀ idx, idx < 1024 - tau_max → sigA idx = sigB idx) ∧
      (g1DirectRound (fun _ => 0) (fun _ => 0)
          (bgOverlay (1024 - tau_max) (fun _ => ⟨1, 0⟩) (fun _ => ⟨1, 0⟩))
          (bgOverlay (1024 - tau_max) bg sigA) tau_max shift).1 tau
        ≠ (g1DirectRound (fun _ => 0) (fun _ => 0)
            (bgOverlay (1024 - tau_max) (fun _ => ⟨1, 0⟩) (fun _ => ⟨1, 0⟩))
            (bgOverlay (1024 - tau_max) bg sigB) tau_max shift).1 tau) ∧
    (∃ bg sigA sigB : Nat → IQ,
      (∀ idx, idx < 1024 - tau_max → sigA idx = sigB idx) ∧
      (g2DirectRound (fun _ => 0) (fun _ => 0)
          (bgOverlay (1024 - tau_max) (fun _ => ⟨1, 0⟩) (fun _ => ⟨1, 0⟩))
          (bgOverlay (1024 - tau_max) bg sigA) tau_max shift).1 tau
        ≠ (g2DirectRound (fun _ => 0) (fun _ => 0)
            (bgOverlay (1024 - tau_max) (fun _ => ⟨1, 0⟩) (fun _ => ⟨1, 0⟩))
            (bgOverlay (1024 - tau_max) bg sigB) tau_max shift).1 tau) :=
  ⟨g1_direct_bg_dependence tau_max tau shift h1 h2 h3,
   g2_direct_bg_dependence tau_max tau shift h1 h2 h3⟩

/-- Witness for C10 at `tau_max = 2`, `tau = 1`, `shift = 0`. -/
theorem direct_background_stale_dependence_witness :
    (1 ≤ 1) ∧ (1 < 2) ∧ (2 ≤ 1023) ∧
    (∃ bg sigA sigB : Nat → IQ,
      (∀ idx, idx < 1024 - 2 → sigA idx = sigB idx) ∧
      (g1DirectRound (fun _ => 0) (fun _ => 0)
          (bgOverlay (1024 - 2) (fun _ => ⟨1, 0⟩) (fun _ => ⟨1, 0⟩))
          (bgOverlay (1024 - 2) bg sigA) 2 0).1 1
        ≠ (g1DirectRound (fun _ => 0) (fun _ => 0)
            (bgOverlay (1024 - 2) (fun _ => ⟨1, 0⟩) (fun _ => ⟨1, 0⟩))
            (bgOverlay (1024 - 2) bg sigB) 2 0).1 1) ∧
    (∃ bg sigA sigB : Nat → IQ,
      (∀ idx, idx < 1024 - 2 → sigA idx = sigB idx) ∧
      (g2DirectRound (fun _ => 0) (fun _ => 0)
          (bgOverlay (1024 - 2) (fun _ => ⟨1, 0⟩) (fun _ => ⟨1, 0⟩))
          (bgOverlay (1024 - 2) bg sigA) 2 0).1 1
        ≠ (g2DirectRound (fun _ => 0) (fun _ => 0)
            (bgOverlay (1024 - 2) (fun _ => ⟨1, 0⟩) (fun _ => ⟨1, 0⟩))
            (bgOverlay (1024 - 2) bg sigB) 2 0).1 1) :=
  ⟨le_rfl, by decide, by decide,
   (direct_background_stale_dependence 2 1 0 le_rfl (by decide) (by decide)).1,
   (direct_background_stale_dependence 2 1 0 le_rfl (by decide) (by decide)).2⟩

/-! ## Claim C1: the ring-buffer drain loop -/

lemma bramAt_recent (f : Nat → Int) (w p : Nat) (hp : p < w) (hw : w ≤ p + 1024) :
    bramAt f w (p % 1024) = f p := by
  unfold bramAt
  split
  · congr 1
    omega
  · split
    · congr 1
      omega
    · exfalso
      omega

lemma pollsLast_cons (D w : Nat) (rest : List Nat) :
    pollsLast D (w :: rest) = pollsLast w rest := by
  unfold pollsLast
  exact List.getLastD_cons D w rest

lemma drainPoll_correct (f : Nat → Int) (D W : Nat) (hDW : D ≤ W)
    (hlt : W - D < 1024) :
    drainPoll (bramAt f W) ⟨D % 1024, (List.range D).map f⟩ (W % 1024)
      = ⟨W % 1024, (List.range W).map f⟩ := by
  rcases Nat.lt_trichotomy (W % 1024) (D % 1024) with hc | hc | hc
  · -- wraparound: drain the tail [D % 1024, 1024), then (if nonempty) [0, W % 1024)
    have hWD : W - D = 1024 + W % 1024 - D % 1024 := by omega
    have htail : (List.range (1024 - D % 1024)).map
          (fun i => bramAt f W (D % 1024 + i))
        = (List.range (1024 - D % 1024)).map (fun i => f (D + i)) := by
      apply List.map_congr_left
      intro i hi
      rw [List.mem_range] at hi
      have hidx : D % 1024 + i = (D + i) % 1024 := by omega
      rw [hidx]
      exact bramAt_recent f W (D + i) (by omega) (by omega)
    have hacc1 : (List.range D).map f
          ++ (List.range (1024 - D % 1024)).map (fun i => f (D + i))
        = (List.range (D + (1024 - D % 1024))).map f := by
      rw [List.range_add, List.map_append, List.map_map]
      rfl
    have hwrap : drainWrapStep (bramAt f W) ⟨D % 1024, (List.range D).map f⟩
          (W % 1024)
        = ⟨0, (List.range (D + (1024 - D % 1024))).map f⟩ := by
      unfold drainWrapStep
      rw [if_pos hc]
      dsimp only
      rw [htail, hacc1]
    rcases Nat.eq_zero_or_pos (W % 1024) with hw0 | hw0
    · -- the wrap drains everything: W = D + (1024 - D % 1024)
      have hWeq : W = D + (1024 - D % 1024) := by omega
      unfold drainPoll
      rw [hwrap]
      unfold drainCopyStep
      dsimp only
      rw [if_neg (by omega)]
      congr 1
      · omega
      · rw [hWeq]
    · -- a second copy loop drains [0, W % 1024)
      have hhead : (List.range (W % 1024 - 0)).map (fun i => bramAt f W (0 + i))
          = (List.range (W % 1024)).map
              (fun i => f (D + (1024 - D % 1024) + i)) := by
        rw [Nat.sub_zero]
        apply List.map_congr_left
        intro i hi
        rw [List.mem_range] at hi
        have hidx : 0 + i = (D + (1024 - D % 1024) + i) % 1024 := by omega
        rw [hidx]
        exact bramAt_recent f W (D + (1024 - D % 1024) + i) (by omega) (by omega)
      have hWeq : W = D + (1024 - D % 1024) + W % 1024 := by omega
      unfold drainPoll
      rw [hwrap]
      unfold drainCopyStep
      dsimp only
      rw [if_pos hw0]
      congr 1
      rw [hhead]
      conv_rhs => rw [hWeq, List.range_add, List.map_append, List.map_map]
      rfl
  · -- no new data: next_addr = last_addr forces W = D
    have hWeq : W = D := by omega
    subst hWeq
    unfold drainPoll drainWrapStep drainCopyStep
    dsimp only
    rw [if_neg (lt_irrefl _)]
    dsimp only
    rw [if_neg (lt_irrefl _)]
  · -- plain advance: drain [D % 1024, W % 1024)
    have hWD : W - D = W % 1024 - D % 1024 := by omega
    have hbody : (List.range (W % 1024 - D % 1024)).map
          (fun i => bramAt f W (D % 1024 + i))
        = (List.range (W % 1024 - D % 1024)).map (fun i => f (D + i)) := by
      apply List.map_congr_left
      intro i hi
      rw [List.mem_range] at hi
      have hidx : D % 1024 + i = (D + i) % 1024 := by omega
      rw [hidx]
      exact bramAt_recent f W (D + i) (by omega) (by omega)
    have hWeq : W = D + (W % 1024 - D % 1024) := by omega
    have hwrapneg : drainWrapStep (bramAt f W) ⟨D % 1024, (List.range D).map f⟩
          (W % 1024)
        = ⟨D % 1024, (List.range D).map f⟩ := by
      unfold drainWrapStep
      dsimp only
      rw [if_neg (by omega)]
    unfold drainPoll
    rw [hwrapneg]
    unfold drainCopyStep
    dsimp only
    rw [if_pos hc]
    congr 1
    rw [hbody]
    conv_rhs => rw [hWeq, List.range_add, List.map_append, List.map_map]
    rfl

lemma drainRun_correct (f : Nat → Int) :
    ∀ (polls : List Nat) (D : Nat),
      validPolls D polls = true →
      drainRun f polls ⟨D % 1024, (List.range D).map f⟩
        = ⟨pollsLast D polls % 1024, (List.range (pollsLast D polls)).map f⟩ := by
  intro polls
  induction polls with
  | nil => intro D _; rfl
  | cons w rest ih =>
    intro D hv
    simp only [validPolls, Bool.and_eq_true, decide_eq_true_eq] at hv
    obtain ⟨⟨h1, h2⟩, h3⟩ := hv
    simp only [drainRun]
    rw [drainPoll_correct f D w h1 h2, ih w h3, pollsLast_cons]

/-- C1 counterexample: under the claim's hypothesis — the producer advances
by less than twice the capacity (2048) between consecutive polls — records
can be lost: a producer that writes exactly 1024 records (one full wrap,
advance 1024 < 2048) before the single post-idle poll leaves
`next_addr = last_addr = 0`, so the loop drains nothing although 1024
records were written; the drained sequence does not equal the written
sequence. -/
theorem drain_twice_capacity_counterexample :
    validPollsTwice 0 [1024] = true ∧
    pollsLast 0 [1024] = 1024 ∧
    (drainRun (fun _ => (1 : Int)) [1024] ⟨0, []⟩).acc = [] ∧
    ((List.range (pollsLast 0 [1024])).map (fun _ => (1 : Int))).length = 1024 :=
  ⟨by decide, by decide, rfl,
   by rw [List.length_map, List.length_range,
     show pollsLast 0 [1024] = 1024 from by decide]⟩

/-- C1 (amended): if the producer advances by less than the capacity
(1024 words) between any two consecutive polls (`validPolls`), then at
loop exit the sequence of words copied into the host states buffer equals,
element for element, the sequence of words the producer wrote before the
sequencer reported idle — every record drained exactly once, in address
order, with no duplicate and no skipped address. The claim's weaker
"less than twice the capacity" bound is insufficient
(`drain_twice_capacity_counterexample`). -/
theorem drain_loop_exact_drain (f : Nat → Int) (polls : List Nat)
    (hv : validPolls 0 polls = true) :
    (drainRun f polls ⟨0, []⟩).acc = (List.range (pollsLast 0 polls)).map f := by
  have hinit : (⟨0, []⟩ : DrainState) = ⟨0 % 1024, (List.range 0).map f⟩ := rfl
  rw [hinit, drainRun_correct f polls 0 hv]

/-- Witness for the amended C1: a producer writing 2 then 1 more record
across two polls is drained exactly as written. -/
theorem drain_loop_exact_drain_witness :
    validPolls 0 [2, 3] = true ∧
    (drainRun (fun n => (n : Int)) [2, 3] ⟨0, []⟩).acc
      = (List.range (pollsLast 0 [2, 3])).map (fun n => (n : Int)) :=
  ⟨by decide, drain_loop_exact_drain (fun n => (n : Int)) [2, 3] (by decide)⟩

end Qiclib
